import Mathlib

/-!
# Verification of the aloe (Zen PDF) page-workspace core

Shallow embedding of the assembly / range-split / search / rotation /
undo-snapshot logic of `src/App.tsx`, `src/utils/pdfPreview.ts` and
`src/utils/pdfUtils.ts`, together with proofs settling the frozen claims
about it.

Conventions of the embedding:
* JavaScript strings are modelled as `String` / `List Char`; `Number`
  values that are exact integers are `Int`/`Nat`, other numeric values are
  exact rationals `ℚ` (the idealisation of IEEE doubles used throughout).
* `Record<string, T>` objects are association lists `List (String × T)`
  looked up by first matching key.
* `async` collaborator calls (pdf.js rendering, pdf-lib loads, OCR) are
  oracles packed into explicit environment records; a call that can throw
  is `Except String` valued, a call whose failure the source swallows into
  a default is `Option` valued.
-/

namespace Aloe

/-! ## Data model (`DocumentEntry`, `PageInstance`, presets) — App.tsx lines 22-55 -/

/-- `DocumentEntry` of App.tsx (the workspace's `SourceDocument`): raw bytes are
owned by the entry and never mutated, so they are left abstract here; only the
fields the verified logic reads are carried. -/
structure DocumentEntry where
  id : String
  name : String
  pageCount : Nat
  encrypted : Bool
  password : Option String
deriving DecidableEq

/-- `textSource` tag of a `PageInstance`. -/
inductive TextSource where
  | native
  | ocr
  | none
deriving DecidableEq

/-- OCR word box (`ocrWords` entries): pixel-space rectangle plus recognized text. -/
structure OcrWord where
  x : ℚ
  y : ℚ
  width : ℚ
  height : ℚ
  text : String
deriving DecidableEq

/-- `PageInstance` of App.tsx. `rotation` is the UI rotation in degrees. -/
structure PageInstance where
  id : String
  documentId : String
  pageIndex : Nat
  rotation : Int
  previewUrl : String
  hasText : Bool
  textSource : TextSource
  text : String
  ocrWords : List OcrWord
  ocrImageSize : Option (ℚ × ℚ)
deriving DecidableEq

/-- The `CompressionPreset` union type of App.tsx line 46. (The source also
compares `preset` against the string `vector_compat` in two places; that value
is not a member of the declared union type, so over this type those
comparisons are identically "not equal" and are folded away below.) -/
inductive CompressionPreset where
  | none
  | balanced
  | high
  | compact
  | very_compact
  | ultra_compact
deriving DecidableEq

/-- Raster image format used by a preset. -/
inductive ImageFormat where
  | jpeg
  | png
deriving DecidableEq

/-- The numeric part of one `COMPRESSION_PRESETS` entry. -/
structure PresetSettings where
  dpi : Option Nat
  quality : Option ℚ
  format : ImageFormat
deriving DecidableEq

/-- `COMPRESSION_PRESETS` table of App.tsx lines 48-55 (labels dropped). -/
def COMPRESSION_PRESETS : CompressionPreset → PresetSettings
  | .none => ⟨Option.none, Option.none, .jpeg⟩
  | .high => ⟨some 300, some (85/100), .jpeg⟩
  | .balanced => ⟨some 200, some (7/10), .jpeg⟩
  | .compact => ⟨some 120, some (55/100), .jpeg⟩
  | .very_compact => ⟨some 96, some (45/100), .jpeg⟩
  | .ultra_compact => ⟨some 72, some (4/10), .jpeg⟩

/-- Association-list model of the `Record<string, DocumentEntry>` documents map. -/
abbrev Documents := List (String × DocumentEntry)

/-- `documents[id]`: first entry with the given key, if any. -/
def lookupDoc (docs : Documents) (docId : String) : Option DocumentEntry :=
  (docs.find? (fun e => e.1 = docId)).map (fun e => e.2)

/-! ## JavaScript string primitives used by the parsing and search code -/

/-- One step of `String.prototype.split(sep)` on a character list: splitting on a
single separator character, keeping empty groups (as JS does). -/
def splitOnChar (sep : Char) : List Char → List (List Char)
  | [] => [[]]
  | c :: rest =>
    if c = sep then [] :: splitOnChar sep rest
    else
      match splitOnChar sep rest with
      | [] => [[c]]
      | g :: gs => (c :: g) :: gs

/-- `value.replace(/\s+/g, '')`: drop every whitespace character. -/
def stripWhitespaceChars (l : List Char) : List Char :=
  l.filter (fun c => !c.isWhitespace)

/-- `String.prototype.trim()` on a character list. -/
def trimChars (l : List Char) : List Char :=
  ((l.dropWhile Char.isWhitespace).reverse.dropWhile Char.isWhitespace).reverse

/-- `String.prototype.trim()`. -/
def jsTrim (s : String) : String :=
  String.mk (trimChars s.data)

/-- Value of a list of decimal digit characters (most significant first). -/
def digitsVal (l : List Char) : Nat :=
  l.foldl (fun a c => 10 * a + (c.toNat - 48)) 0

/-- `Number.parseInt(s, 10)`: skip leading whitespace, read an optional sign and
then the longest run of decimal digits; `Option.none` models `NaN` (no digits). -/
def jsParseInt (l : List Char) : Option Int :=
  let cs := l.dropWhile Char.isWhitespace
  match cs with
  | '-' :: r =>
    let digits := r.takeWhile Char.isDigit
    if digits.isEmpty then Option.none else some (-(digitsVal digits : Int))
  | '+' :: r =>
    let digits := r.takeWhile Char.isDigit
    if digits.isEmpty then Option.none else some (digitsVal digits : Int)
  | r =>
    let digits := r.takeWhile Char.isDigit
    if digits.isEmpty then Option.none else some (digitsVal digits : Int)

/-! ## Range parsing — `parsePageRanges` (App.tsx 1732-1761) and the
`confirmSplit` range-text surface (App.tsx 960-962) -/

/-- `PageRange` of pdfUtils.ts: 1-based inclusive bounds. The source names the
second field `end`, a Lean keyword; it is called `stop` here. -/
structure PageRange where
  start : Int
  stop : Int
deriving DecidableEq

/-- A `map` whose callback may throw: the list is processed left to right and
the first exception aborts the whole map, exactly like `Array.prototype.map`
with a throwing callback. -/
def throwMap (f : α → Except ε β) : List α → Except ε (List β)
  | [] => Except.ok []
  | x :: xs => do
    let y ← f x
    let ys ← throwMap f xs
    Except.ok (y :: ys)

/-- One `segments.map` callback body of `parsePageRanges`: parse a single
comma-separated segment against `totalPages`, throwing the source's exact
error messages. -/
def parseSegment (totalPages : Int) (seg : List Char) : Except String PageRange :=
  if seg.contains '-' then
    let pieces := splitOnChar '-' seg
    let startRaw := (pieces.get? 0).getD []
    let endRaw := (pieces.get? 1).getD []
    match jsParseInt startRaw, jsParseInt endRaw with
    | some startN, some stopN =>
      if startN < 1 ∨ stopN < startN ∨ stopN > totalPages then
        Except.error ("Range " ++ String.mk seg ++ " is outside the document bounds.")
      else
        Except.ok ⟨startN, stopN⟩
    | _, _ => Except.error ("Invalid range segment: " ++ String.mk seg)
  else
    match jsParseInt seg with
    | some page =>
      if page < 1 ∨ page > totalPages then
        Except.error ("Invalid page number: " ++ String.mk seg)
      else
        Except.ok ⟨page, page⟩
    | Option.none => Except.error ("Invalid page number: " ++ String.mk seg)

/-- `parsePageRanges(value, totalPages)` of App.tsx lines 1732-1761: strip all
whitespace, reject the empty result, split on commas and parse each segment. -/
def parsePageRanges (value : String) (totalPages : Int) : Except String (List PageRange) :=
  let sanitized := stripWhitespaceChars value.data
  if sanitized.isEmpty then Except.error "Page ranges cannot be empty."
  else throwMap (parseSegment totalPages) (splitOnChar ',' sanitized)

/-- The range-text surface of `confirmSplit` (App.tsx lines 960-962): a trimmed
input equal to the sentinel `*` expands to one singleton range per workspace
page, anything else goes through `parsePageRanges`. -/
def confirmSplitRanges (rangeText : String) (numPages : Nat) : Except String (List PageRange) :=
  if jsTrim rangeText = "*" then
    Except.ok ((List.range numPages).map (fun idx => ⟨(idx : Int) + 1, (idx : Int) + 1⟩))
  else
    parsePageRanges rangeText (numPages : Int)

/-! ## Search — `handleSearchSubmit` (App.tsx lines 1142-1190) -/

/-- `toLowerCase()` on a character list (ASCII case folding of `Char.toLower`,
the idealisation of the JS Unicode fold used by the source). -/
def jsToLower (l : List Char) : List Char :=
  l.map Char.toLower

/-- `needle` occurs in `hay` starting at index `i`. -/
def matchesAt (hay needle : List Char) (i : Nat) : Bool :=
  needle.isPrefixOf (hay.drop i)

/-- `hay.indexOf(needle, start)`: smallest index `i ≥ start` at which `needle`
occurs, `Option.none` for the source's `-1`. -/
def indexOfFrom (hay needle : List Char) (start : Nat) : Option Nat :=
  (List.range (hay.length + 1)).find? (fun i => decide (start ≤ i) && matchesAt hay needle i)

/-- The occurrence loop of `handleSearchSubmit` (App.tsx lines 1167-1176):
repeatedly `indexOf` from just past the previous match
(`offset + normalizedQuery.length`), collecting every offset found. The fuel
argument bounds the iteration count; `hay.length + 1` fuel is always enough
because each found offset is at least one past the previous resume point. -/
def greedyScanAux (hay needle : List Char) : Nat → Nat → List Nat
  | 0, _ => []
  | fuel + 1, start =>
    match indexOfFrom hay needle start with
    | Option.none => []
    | some i => i :: greedyScanAux hay needle fuel (i + needle.length)

/-- All occurrence offsets recorded by the source's scan loop. The empty-needle
guard is unreachable from `handleSearchSubmit` (the query is trimmed and
checked non-empty first) and only makes the model total. -/
def greedyScan (hay needle : List Char) : List Nat :=
  if needle.isEmpty then [] else greedyScanAux hay needle (hay.length + 1) 0

/-- `text.slice(a, b)` for `0 ≤ a ≤ b` (the only way the source calls it). -/
def jsSlice (l : List Char) (a b : Nat) : List Char :=
  (l.take b).drop a

/-- `replace(/\s+/g, ' ')`: each maximal whitespace run becomes one space.
The boolean records whether the previous character was inside a run. -/
def collapseWsAux : Bool → List Char → List Char
  | _, [] => []
  | prevWs, c :: rest =>
    if c.isWhitespace then
      if prevWs then collapseWsAux true rest
      else ' ' :: collapseWsAux true rest
    else c :: collapseWsAux false rest

/-- `replace(/\s+/g, ' ')` on a character list. -/
def collapseWs (l : List Char) : List Char :=
  collapseWsAux false l

/-- Snippet construction of `handleSearchSubmit` (App.tsx lines 1170-1172):
`text.slice(max(0, offset-40), min(len, offset+query.length+40))`, whitespace
collapsed and trimmed. `Nat` subtraction supplies the `Math.max(0, ·)`. -/
def mkSnippet (text : List Char) (offset qlen : Nat) : List Char :=
  trimChars (collapseWs (jsSlice text (offset - 40) (min text.length (offset + qlen + 40))))

/-- One entry of the `matches` array built by `handleSearchSubmit`. -/
structure SearchMatch where
  docId : String
  pageIndex : Nat
  pageId : String
  snippet : String
  occurrence : Nat
deriving DecidableEq

/-- The per-page body of the `for (const p of pages)` loop of
`handleSearchSubmit`: all case-insensitive occurrences of the (trimmed)
query in `p.text`, each with its occurrence index within the page and its
snippet. -/
def searchPage (p : PageInstance) (query : String) : List SearchMatch :=
  let text := p.text.data
  if text.isEmpty then []
  else
    ((greedyScan (jsToLower text) (jsToLower query.data)).enum).map (fun oi =>
      { docId := p.documentId, pageIndex := p.pageIndex, pageId := p.id,
        snippet := String.mk (mkSnippet text oi.2 query.length), occurrence := oi.1 })

/-- Result state written by `handleSearchSubmit`: the `searchError` message and
the `searchResults` list. -/
structure SearchOutcome where
  searchError : Option String
  results : List SearchMatch
deriving DecidableEq

/-- `handleSearchSubmit` (App.tsx lines 1142-1190), as a function of the page
list and the raw query box contents. -/
def handleSearchSubmit (pages : List PageInstance) (rawQuery : String) : SearchOutcome :=
  let query := jsTrim rawQuery
  if query = "" then ⟨some "Enter text to search for.", []⟩
  else if pages.isEmpty then ⟨some "Upload a PDF before searching.", []⟩
  else
    let found := pages.flatMap (fun p => searchPage p query)
    if found.isEmpty then ⟨some ("No matches found for “" ++ query ++ "”."), []⟩
    else ⟨Option.none, found⟩

/-! ## Pixel-budget DPI adaptation (App.tsx lines 584-591 and 634-641) -/

/-- `pxW * pxH` with `pxW = widthPts * (dpi/72)` and `pxH = heightPts * (dpi/72)`:
the naive pixel count of a page at a given DPI. -/
def naivePixels (dpi : Nat) (widthPts heightPts : ℚ) : ℚ :=
  (widthPts * ((dpi : ℚ) / 72)) * (heightPts * ((dpi : ℚ) / 72))

/-- `Math.floor(targetDpi * scale)` with `scale = Math.sqrt(maxPixels / pixels)`.
Over exact arithmetic this equals `Nat.sqrt ⌊dpi² * maxPixels / pixels⌋`
(for a nonnegative real `x`, `⌊Real.sqrt x⌋ = Nat.sqrt ⌊x⌋.toNat` — proved as
`floor_sqrt_eq_sqrt_floor` below — and `dpi * √(m/p) = √(dpi²·m/p)`; the
agreement with the source's formula is `unclampedDpi_eq_floor_sqrt` below),
which is the computable form used here. -/
def unclampedDpi (dpi : Nat) (widthPts heightPts maxPixels : ℚ) : Nat :=
  Nat.sqrt (⌊((dpi : ℚ) ^ 2 * maxPixels / naivePixels dpi widthPts heightPts : ℚ)⌋).toNat

/-- The DPI adaptation of both raster paths (App.tsx lines 584-591 and 634-641):
`if (pixels > MAX) targetDpi = Math.max(72, Math.floor(targetDpi * Math.sqrt(MAX / pixels)))`. -/
def effectiveDpi (dpi : Nat) (widthPts heightPts : ℚ) (maxPixels : ℚ) : Nat :=
  if maxPixels < naivePixels dpi widthPts heightPts then
    max 72 (unclampedDpi dpi widthPts heightPts maxPixels)
  else dpi

/-- `MAX_PIXELS` of the primary (global raster) encode path, App.tsx line 564. -/
def MAX_PIXELS : ℚ := 10000000

/-- `MAX_PIXELS_FALLBACK` of the per-page rasterize fallback, App.tsx line 622. -/
def MAX_PIXELS_FALLBACK : ℚ := 8000000

/-! ## Highlight-rectangle rotation mapping — `findTextRects` / `mapRect`
(pdfPreview.ts lines 383-414) -/

/-- `TextRect` of pdfPreview.ts. -/
structure TextRect where
  x : ℚ
  y : ℚ
  width : ℚ
  height : ℚ
deriving DecidableEq

/-- `rot = (((options.rotation ?? 0) % 360) + 360) % 360` (pdfPreview.ts 384). -/
def normalizeRot (rotation : Int) : Int :=
  ((rotation % 360) + 360) % 360

/-- `mapRect` of pdfPreview.ts lines 392-407, for `rot ∈ {90, 180, 270}`
(`W`/`H` are the un-rotated viewport width and height). -/
def mapRect (rot : Int) (W H : ℚ) (r : TextRect) : TextRect :=
  if rot = 90 then ⟨H - (r.y + r.height), r.x, r.height, r.width⟩
  else if rot = 180 then ⟨W - (r.x + r.width), H - (r.y + r.height), r.width, r.height⟩
  else ⟨r.y, W - (r.x + r.width), r.height, r.width⟩

/-- The rotation-mapping tail of `findTextRects` (pdfPreview.ts lines 383-413):
rectangles computed in the un-rotated coordinate space are returned unchanged
at display rotation 0 and otherwise mapped through `mapRect`. -/
def applyRotationMapping (rotation : Int) (W H : ℚ) (rects : List TextRect) : List TextRect :=
  let rot := normalizeRot rotation
  if rot = 0 then rects else rects.map (mapRect rot W H)

/-! ## Assembly engine — `assemblePdfFromPages` (App.tsx lines 553-720) -/

/-- Result of `renderPageBitmap` (pdfPreview.ts 112-179): the fields the
assembly code reads back (output page size in points and actual format). -/
structure Bitmap where
  widthPts : ℚ
  heightPts : ℚ
  format : ImageFormat
deriving DecidableEq

/-- Oracles for the awaited collaborator calls made by `assemblePdfFromPages`.
All oracles are keyed by `(documentId, pageIndex)` since the underlying calls
receive the document's bytes (owned, immutable) and the page index.

* `pageSize`: `PDFDocument.load(...).getPage(i).getSize()`; `Option.none`
  models the catch-all that keeps the 612×792 letter default.
* `render`: `renderPageBitmap(buffer, i, {dpi, format, quality, password,
  rotation})`; an `Except.error` is a thrown render error, which the source
  does not catch on either raster path.
* `intrinsicRotation`: `src.getPage(i).getRotation().angle`; `Option.none`
  models the catch that rasterizes "if we can't determine intrinsic rotation".
* `structuralAttempt`: the whole per-page structural try body — copy the page
  into a throwaway document, apply the rotation, `save`, then
  `validatePdfRenderable`; `Except.error` is any exception thrown inside the
  `try`, `Except.ok b` is the validation verdict. -/
structure AssembleEnv where
  pageSize : String → Nat → Option (ℚ × ℚ)
  render : String → Nat → Nat → ImageFormat → ℚ → Option String → Int → Except String Bitmap
  intrinsicRotation : String → Nat → Option Int
  structuralAttempt : String → Nat → Option Int → Except String Bool

/-- One page of the assembled output document: either a full-bleed embedded
raster image or a structurally copied source page.  `raster` records the DPI
and rotation the bitmap was rendered with and the output page's size in
points; `structural` records the rotation explicitly written to the copied
page's rotation attribute (`Option.none` when `setRotation` is not called). -/
inductive OutPage where
  | raster (docId : String) (pageIndex : Nat) (dpi : Nat) (rotation : Int)
      (widthPts heightPts : ℚ)
  | structural (docId : String) (pageIndex : Nat) (rotationSet : Option Int)
deriving DecidableEq

/-- Errors surfaced by `assemblePdfFromPages`: the explicit empty-input throw
(`AssemblyError` of the spec) versus an uncaught per-page collaborator error. -/
inductive AsmError where
  | assemblyError (msg : String)
  | pageError (msg : String)
deriving DecidableEq

/-- `requiresRaster` (App.tsx line 559): a preset other than `none` forces
global raster mode, as does any referenced encrypted document.  (Over the
declared `CompressionPreset` type the source's `preset !== 'vector_compat'`
conjunct is identically true and is dropped.)  A page whose `documentId` does
not resolve contributes `undefined?.encrypted`, i.e. `false`. -/
def requiresRaster (docs : Documents) (pageList : List PageInstance)
    (preset : CompressionPreset) : Bool :=
  preset ≠ CompressionPreset.none ||
    pageList.any (fun p => ((lookupDoc docs p.documentId).map (fun d => d.encrypted)).getD false)

/-- The per-page body of the global raster loop (App.tsx lines 566-613):
skip pages whose document is gone, read the cached page size (612×792 on
failure), adapt the preset DPI to the 10 MP budget, render, and add one
output page sized to the bitmap's point dimensions. -/
def rasterPage (env : AssembleEnv) (docs : Documents) (settings : PresetSettings)
    (bakeRotation : Bool) (p : PageInstance) : Except String (List OutPage) :=
  match lookupDoc docs p.documentId with
  | Option.none => Except.ok []
  | some d =>
    let size := (env.pageSize p.documentId p.pageIndex).getD (612, 792)
    let dpi := effectiveDpi (settings.dpi.getD 150) size.1 size.2 MAX_PIXELS
    let rot : Int := if bakeRotation then p.rotation else 0
    (env.render p.documentId p.pageIndex dpi settings.format (settings.quality.getD (8/10))
        d.password rot).map
      (fun bmp => [OutPage.raster p.documentId p.pageIndex dpi rot bmp.widthPts bmp.heightPts])

/-- `rasterizePageInto` (App.tsx lines 623-652): the single-page raster
fallback of the structural path — fixed 150 DPI adapted to the 8 MP budget,
JPEG at quality 0.7.  A missing document adds nothing (`if (!d) return`);
a render error propagates (the call sites do not guard this helper's own
failure except through the outer per-page catch, modelled at the call site). -/
def rasterizePageInto (env : AssembleEnv) (docs : Documents) (bakeRotation : Bool)
    (p : PageInstance) : Except String (List OutPage) :=
  match lookupDoc docs p.documentId with
  | Option.none => Except.ok []
  | some d =>
    let size := (env.pageSize p.documentId p.pageIndex).getD (612, 792)
    let dpi := effectiveDpi 150 size.1 size.2 MAX_PIXELS_FALLBACK
    let rot : Int := if bakeRotation then p.rotation else 0
    (env.render p.documentId p.pageIndex dpi ImageFormat.jpeg (7/10) d.password rot).map
      (fun bmp => [OutPage.raster p.documentId p.pageIndex dpi rot bmp.widthPts bmp.heightPts])

/-- The rotation explicitly applied to a structurally copied page:
`if (bakeRotation && p.rotation) setRotation((cur + p.rotation + 360) % 360)`
(App.tsx lines 692-694 and 701-703), where `cur` is the copied page's
intrinsic rotation. -/
def structuralRotationSet (env : AssembleEnv) (bakeRotation : Bool) (p : PageInstance) :
    Option Int :=
  if bakeRotation ∧ p.rotation ≠ 0 then
    some ((((env.intrinsicRotation p.documentId p.pageIndex).getD 0) + p.rotation + 360) % 360)
  else Option.none

/-- The per-page body of the structural-copy loop (App.tsx lines 654-713):
encrypted documents are rasterized; with `bakeRotation`, any non-zero
intrinsic or UI rotation (or failure to read the intrinsic rotation) forces
rasterization; otherwise the structural try body runs — a passing validation
adds the structurally copied page, a failing one falls back to
`rasterizePageInto` (still inside the `try`), and any exception from the try
body is caught and the page is rasterized via the fallback instead. -/
def processStructuralPage (env : AssembleEnv) (docs : Documents) (bakeRotation : Bool)
    (p : PageInstance) : Except String (List OutPage) :=
  match lookupDoc docs p.documentId with
  | Option.none => Except.ok []
  | some d =>
    if d.encrypted then rasterizePageInto env docs bakeRotation p
    else
      let bakeForcesRaster : Bool :=
        if bakeRotation then
          match env.intrinsicRotation p.documentId p.pageIndex with
          | Option.none => true
          | some intrinsic => intrinsic % 360 ≠ 0 ∨ p.rotation % 360 ≠ 0
        else false
      if bakeForcesRaster then rasterizePageInto env docs bakeRotation p
      else
        let body : Except String (List OutPage) := do
          let ok ← env.structuralAttempt p.documentId p.pageIndex
            (structuralRotationSet env bakeRotation p)
          if ok then
            Except.ok [OutPage.structural p.documentId p.pageIndex
              (structuralRotationSet env bakeRotation p)]
          else rasterizePageInto env docs bakeRotation p
        match body with
        | Except.ok out => Except.ok out
        | Except.error _ => rasterizePageInto env docs bakeRotation p

/-- `for (const p of pageList) { ... }` over a fallible per-page body,
appending each page's output pages in order; the first uncaught exception
aborts the whole call. -/
def processPages (f : PageInstance → Except String (List OutPage)) :
    List PageInstance → Except String (List OutPage)
  | [] => Except.ok []
  | p :: rest => do
    let out ← f p
    let more ← processPages f rest
    Except.ok (out ++ more)

/-- `assemblePdfFromPages(pageList, preset, bakeRotation)` (App.tsx 553-720),
returning the ordered list of output pages of the produced document.  The
empty-input throw is the only `AssemblyError`; everything else the call can
raise is an uncaught per-page error. -/
def assemblePdfFromPages (env : AssembleEnv) (docs : Documents)
    (pageList : List PageInstance) (preset : CompressionPreset) (bakeRotation : Bool) :
    Except AsmError (List OutPage) :=
  if pageList.isEmpty then Except.error (AsmError.assemblyError "No pages available to assemble.")
  else if requiresRaster docs pageList preset then
    (processPages (rasterPage env docs (COMPRESSION_PRESETS preset) bakeRotation)
        pageList).mapError AsmError.pageError
  else
    (processPages (processStructuralPage env docs bakeRotation) pageList).mapError
      AsmError.pageError

/-! ## Workspace state machine — snapshots, undo and the mutating handlers
(App.tsx lines 133-193, 363-552, 875-1140) -/

/-- The workspace triple captured by a snapshot: the documents map, the
document order and the ordered page list. -/
structure Workspace where
  documents : Documents
  documentOrder : List String
  pages : List PageInstance
deriving DecidableEq

/-- The mutable state relevant to the claims: the live workspace plus
`undoStackRef.current`.  The source pushes and pops at the end of a JS array;
the stack is modelled head-first with `pushSnapshot` consing and `handleUndo`
taking the head. -/
structure AppState where
  ws : Workspace
  undoStack : List Workspace
deriving DecidableEq

/-- `pushSnapshot` (App.tsx lines 176-184): push shallow copies of the three
top-level collections — exact copies in this pure model. -/
def pushSnapshot (s : AppState) : AppState :=
  { s with undoStack := s.ws :: s.undoStack }

/-- `handleUndo` (App.tsx lines 186-193): pop the most recent snapshot and
restore it; an empty stack leaves the state untouched (`if (!prev) return`). -/
def handleUndo (s : AppState) : AppState :=
  match s.undoStack with
  | [] => s
  | w :: rest => { ws := w, undoStack := rest }

/-- `RotationDirection` of pdfUtils.ts. -/
inductive RotationDirection where
  | clockwise
  | counterclockwise
deriving DecidableEq

/-- `const delta = direction === 'clockwise' ? 90 : -90` (App.tsx line 482). -/
def rotationDelta : RotationDirection → Int
  | .clockwise => 90
  | .counterclockwise => -90

/-- `handleRotate` (App.tsx lines 469-500).  A missing page or document
returns without touching anything; otherwise a snapshot is pushed and only
the target page's `rotation` is replaced by
`(previous + delta + 360) % 360`.  For an encrypted document the source
additionally refreshes the target page's `previewUrl` from a re-render
(`refreshedPreview`; `Option.none` models the caught render failure that
leaves the preview unchanged). -/
def handleRotate (refreshedPreview : Option String) (pageId : String)
    (direction : RotationDirection) (s : AppState) : AppState :=
  match s.ws.pages.find? (fun page => page.id = pageId) with
  | Option.none => s
  | some targetPage =>
    match lookupDoc s.ws.documents targetPage.documentId with
    | Option.none => s
    | some docEntry =>
      let s1 := pushSnapshot s
      let optimisticRotation := (targetPage.rotation + rotationDelta direction + 360) % 360
      let s2 := { s1 with ws := { s1.ws with pages := s1.ws.pages.map (fun p =>
          if p.id = pageId then { p with rotation := optimisticRotation } else p) } }
      if docEntry.encrypted then
        match refreshedPreview with
        | some url => { s2 with ws := { s2.ws with pages := s2.ws.pages.map (fun p =>
            if p.id = pageId then { p with previewUrl := url } else p) } }
        | Option.none => s2
      else s2

/-- `handleDelete` (App.tsx lines 502-532): push a snapshot, drop the page,
prune documents no longer referenced by any remaining page, and filter the
document order down to the remaining documents. -/
def handleDelete (pageId : String) (s : AppState) : AppState :=
  let s1 := pushSnapshot s
  let next := s1.ws.pages.filter (fun page => page.id ≠ pageId)
  let remainingDocIds := next.map (fun page => page.documentId)
  { s1 with ws := {
      documents := s1.ws.documents.filter (fun e => remainingDocIds.contains e.1),
      documentOrder := s1.ws.documentOrder.filter (fun id => remainingDocIds.contains id),
      pages := next } }

/-- `Array.from(new Set(list))`: deduplication keeping first occurrences. -/
def dedupFirstAux (seen : List String) : List String → List String
  | [] => []
  | a :: l => if a ∈ seen then dedupFirstAux seen l else a :: dedupFirstAux (a :: seen) l

/-- `Array.from(new Set(list))`. -/
def dedupFirst (l : List String) : List String :=
  dedupFirstAux [] l

/-- The two `splice` calls of `handleReorder` (App.tsx lines 460-462): remove
the element at `src` and re-insert it at `dst` (a `dst` beyond the shortened
list appends, as `splice` does).  An out-of-range `src` is left as the
identity; the drag-and-drop caller only produces valid indices. -/
def movePage (l : List PageInstance) (src dst : Nat) : List PageInstance :=
  match l[src]? with
  | Option.none => l
  | some moved => (l.eraseIdx src).insertIdx (min dst (l.eraseIdx src).length) moved

/-- `handleReorder` (App.tsx lines 457-467): push a snapshot, move the page,
and rebuild the document order as the deduplicated document ids of the new
page order. -/
def handleReorder (sourceIndex destinationIndex : Nat) (s : AppState) : AppState :=
  let s1 := pushSnapshot s
  let next := movePage s1.ws.pages sourceIndex destinationIndex
  { s1 with ws := { s1.ws with
      pages := next,
      documentOrder := dedupFirst (next.map (fun page => page.documentId)) } }

/-- `resetWorkspace` (App.tsx lines 534-551): push a snapshot and clear all
three collections (the search/preview state it also clears is UI-only). -/
def resetWorkspace (s : AppState) : AppState :=
  let s1 := pushSnapshot s
  { s1 with ws := { documents := [], documentOrder := [], pages := [] } }

/-- `{...prev, ...added}` on two association lists: keys of `prev` keep their
position (with the overriding value where `added` has the key), keys only in
`added` are appended in order. -/
def mergeDocs (prev added : Documents) : Documents :=
  (prev.map (fun e =>
    match lookupDoc added e.1 with
    | some d => (e.1, d)
    | Option.none => e)) ++
  added.filter (fun e => !(lookupDoc prev e.1).isSome)

/-- The per-document outcome of the `handlePdfLoad` loop for one accepted
file: the created `DocumentEntry` plus the oracles for the per-page ids,
preview URLs and extracted native text (files skipped for password or load
failures simply do not appear). -/
structure LoadedDocOutcome where
  doc : DocumentEntry
  pageIds : Nat → String
  previews : Nat → String
  texts : Nat → String

/-- The per-page `newPages.push` loop of `handlePdfLoad` (App.tsx lines
427-442): one page per source page, rotation 0, tagged `native` exactly when
the extracted text is non-blank (`Boolean(txt && txt.trim())`). -/
def pagesOfLoaded (o : LoadedDocOutcome) : List PageInstance :=
  (List.range o.doc.pageCount).map (fun pageIndex =>
    let txt := o.texts pageIndex
    let hasText := !txt.isEmpty && !(jsTrim txt).isEmpty
    { id := o.pageIds pageIndex, documentId := o.doc.id, pageIndex := pageIndex,
      rotation := 0, previewUrl := o.previews pageIndex, hasText := hasText,
      textSource := if hasText then TextSource.native else TextSource.none,
      text := if hasText then txt else "",
      ocrWords := [], ocrImageSize := Option.none })

/-- `handlePdfLoad` (App.tsx lines 363-455).  `anyInput` is
`loaded.length > 0` (the raw file-picker list; an empty one returns
immediately); `outcomes` are the accepted files.  A snapshot is recorded only
when the workspace already had content, and the new documents, order entries
and pages are appended. -/
def handlePdfLoad (anyInput : Bool) (outcomes : List LoadedDocOutcome) (s : AppState) :
    AppState :=
  if !anyInput then s
  else
    let hadContent := !s.ws.pages.isEmpty || !s.ws.documentOrder.isEmpty
    let s1 := if hadContent then pushSnapshot s else s
    let newDocuments : Documents := outcomes.map (fun o => (o.doc.id, o.doc))
    let newOrder := outcomes.map (fun o => o.doc.id)
    let newPages := outcomes.flatMap pagesOfLoaded
    { s1 with ws := {
        documents := mergeDocs s1.ws.documents newDocuments,
        documentOrder := s1.ws.documentOrder ++ newOrder,
        pages := s1.ws.pages ++ newPages } }

/-- OCR result for one page, as assembled from the backend's TSV: the
recognized text (space-joined words), word boxes and raster pixel size. -/
structure OcrRec where
  recognized : String
  words : List OcrWord
  widthPx : ℚ
  heightPx : ℚ

/-- `handleRunOcr` (App.tsx lines 1030-1140), `setPages` phase.  `ocrResult`
returns the recognition outcome for the pages the loop processed
(`Option.none` for pages skipped in smart mode, pages of missing documents,
or pages absent from `textByDocument`).  A page is retagged `ocr` — with the
trimmed recognized text, the word boxes and the raster size stored together —
exactly when its trimmed recognized text is non-empty. -/
def handleRunOcr (ocrResult : String → Nat → Option OcrRec) (s : AppState) : AppState :=
  if s.ws.pages.isEmpty then s
  else
    let s1 := pushSnapshot s
    { s1 with ws := { s1.ws with pages := s1.ws.pages.map (fun p =>
        match ocrResult p.documentId p.pageIndex with
        | some r =>
          let recTrimmed := jsTrim r.recognized
          if !recTrimmed.isEmpty then
            { p with
              hasText := true
              textSource := TextSource.ocr
              text := recTrimmed
              ocrWords := r.words
              ocrImageSize := some (r.widthPx, r.heightPx) }
          else p
        | Option.none => p) } }

/-- Fields the source reads to build a regenerated (merge/split) page from the
working page at the same position: text state and rotation are inherited from
`src` when present (App.tsx lines 905-925 and 989-1011). -/
def derivedPageFrom (src : Option PageInstance) (docId pageId : String)
    (pageIndex : Nat) (previewUrl : String) : PageInstance :=
  let hasText := (src.map (fun p => p.hasText)).getD false
  { id := pageId, documentId := docId, pageIndex := pageIndex,
    rotation := (src.map (fun p => p.rotation)).getD 0,
    previewUrl := previewUrl, hasText := hasText,
    textSource := match src with
      | some p => p.textSource
      | Option.none => if hasText then TextSource.native else TextSource.none,
    text := if hasText then (src.map (fun p => p.text)).getD "" else "",
    ocrWords := match src with
      | some p => if p.textSource = TextSource.ocr then p.ocrWords else []
      | Option.none => [],
    ocrImageSize := match src with
      | some p => if p.textSource = TextSource.ocr then p.ocrImageSize else Option.none
      | Option.none => Option.none }

/-- The replacement workspace `handleMerge` installs on success (App.tsx lines
892-930): one merged document of `pageCount` pages, each regenerated page
inheriting text state and rotation from the working page at its position. -/
def mergedWorkspace (newDocId : String) (pageIds previews : Nat → String)
    (basePages : List PageInstance) (pageCount : Nat) : Workspace :=
  { documents := [(newDocId,
      { id := newDocId, name := "merged.pdf", pageCount := pageCount,
        encrypted := false, password := Option.none })]
    documentOrder := [newDocId]
    pages := (List.range pageCount).map (fun index =>
      derivedPageFrom basePages[index]? newDocId (pageIds index) index (previews index)) }

/-- `handleMerge` (App.tsx lines 875-940): with content present, push a
snapshot, assemble the whole page list with preset `none` and no rotation
baking, and replace the workspace by the merged document workspace whose page
count is that of the assembled bytes.  An assembly error is caught and leaves
the workspace unchanged (the snapshot remains). -/
def handleMerge (env : AssembleEnv) (newDocId : String) (pageIds : Nat → String)
    (previews : Nat → String) (s : AppState) : AppState :=
  if s.ws.pages.isEmpty then s
  else
    let s1 := pushSnapshot s
    match assemblePdfFromPages env s.ws.documents s.ws.pages CompressionPreset.none false with
    | Except.error _ => s1
    | Except.ok out =>
      { s1 with ws := mergedWorkspace newDocId pageIds previews s.ws.pages out.length }

/-- The message carried by an assembly failure (for re-throwing through the
`confirmSplit` catch, which only inspects `error.message`). -/
def asmErrorMessage : AsmError → String
  | .assemblyError msg => msg
  | .pageError msg => msg

/-- `splitPDF` of pdfUtils.ts lines 137-161, reduced to the page count of each
produced chunk: an empty range list throws, every range is validated against
the source document's page count, and a valid range `[start, end]` yields a
chunk of `end - start + 1` pages. -/
def splitPDFCounts (totalPages : Nat) (ranges : List PageRange) : Except String (List Nat) :=
  if ranges.isEmpty then Except.error "splitPDF requires at least one range."
  else
    throwMap (fun r =>
      if r.start < 1 ∨ r.stop < r.start ∨ r.stop > (totalPages : Int) then
        Except.error ("Invalid range [" ++ toString r.start ++ ", " ++ toString r.stop ++
          "] for document with " ++ toString totalPages ++ " pages.")
      else Except.ok (r.stop - r.start + 1).toNat) ranges

/-- `pages.slice(start - 1, end)`: the working pages covered by a 1-based
inclusive range (App.tsx line 964). -/
def rangeSlice (basePages : List PageInstance) (r : PageRange) : List PageInstance :=
  (basePages.take r.stop.toNat).drop (r.start - 1).toNat

/-- The replacement workspace `confirmSplit` installs on success (App.tsx lines
970-1016): one document per chunk (`split-(i+1).pdf`, `pageCount` from the
loaded chunk), each regenerated page inheriting text state and rotation from
the working page at the same position of its range. -/
def splitWorkspace (chunkDocIds : Nat → String)
    (chunkPageIds chunkPreviews : Nat → Nat → String)
    (basePages : List PageInstance) (ranges : List PageRange) (counts : List Nat) :
    Workspace :=
  { documents := counts.enum.map (fun ic =>
      (chunkDocIds ic.1,
        { id := chunkDocIds ic.1, name := "split-" ++ toString (ic.1 + 1) ++ ".pdf",
          pageCount := ic.2, encrypted := false, password := Option.none }))
    documentOrder := counts.enum.map (fun ic => chunkDocIds ic.1)
    pages := counts.enum.flatMap (fun ic =>
      let srcList := match ranges[ic.1]? with
        | some r => rangeSlice basePages r
        | Option.none => []
      (List.range ic.2).map (fun pageIndex =>
        derivedPageFrom srcList[pageIndex]? (chunkDocIds ic.1)
          (chunkPageIds ic.1 pageIndex) pageIndex (chunkPreviews ic.1 pageIndex))) }

/-- `confirmSplit` (App.tsx lines 950-1028): push a snapshot, resolve the
range text (sentinel `*` or `parsePageRanges` against the working page
count), assemble the whole page list (`'none'`, no baking), split the result,
and replace the workspace by one document per chunk; each regenerated page
inherits text state and rotation from the working page at the same position
of its range (`pages.slice(start - 1, end)`).  Any thrown error along the way
is caught and leaves the workspace unchanged (the snapshot remains). -/
def confirmSplit (env : AssembleEnv) (chunkDocIds : Nat → String)
    (chunkPageIds : Nat → Nat → String) (chunkPreviews : Nat → Nat → String)
    (rangeText : String) (s : AppState) : AppState :=
  let s1 := pushSnapshot s
  match confirmSplitRanges rangeText s.ws.pages.length with
  | Except.error _ => s1
  | Except.ok ranges =>
    match assemblePdfFromPages env s.ws.documents s.ws.pages CompressionPreset.none false with
    | Except.error _ => s1
    | Except.ok baseOut =>
      match splitPDFCounts baseOut.length ranges with
      | Except.error _ => s1
      | Except.ok counts =>
        { s1 with ws :=
            splitWorkspace chunkDocIds chunkPageIds chunkPreviews s.ws.pages ranges counts }

/-! ## Workspace invariants (spec §3, claim C9) -/

/-- `rotationDegrees ∈ {0, 90, 180, 270}`. -/
def RotOk (r : Int) : Prop :=
  r = 0 ∨ r = 90 ∨ r = 180 ∨ r = 270

/-- The referential-integrity invariant of the workspace: every page's
`documentId` resolves to a live document, every document (and every id in the
document order) is referenced by at least one page, and every page's rotation
is one of the four right angles. -/
structure WsInvariant (ws : Workspace) : Prop where
  resolves : ∀ p ∈ ws.pages, (lookupDoc ws.documents p.documentId).isSome
  referenced : ∀ e ∈ ws.documents, ∃ p ∈ ws.pages, p.documentId = e.1
  orderLive : ∀ docId ∈ ws.documentOrder, ∃ p ∈ ws.pages, p.documentId = docId
  rotOk : ∀ p ∈ ws.pages, RotOk p.rotation

/-! ## Concrete instances used by counterexamples and witnesses -/

/-- All offsets at which `needle` occurs in `hay` (including overlapping
occurrences) — the reference notion of "every occurrence" of the claim. -/
def allOccurrences (hay needle : List Char) : List Nat :=
  (List.range (hay.length + 1)).filter (fun i => matchesAt hay needle i)

/-- A native-text page whose cached text is `"aaa"`. -/
def samplePageAAA : PageInstance :=
  { id := "p1", documentId := "d1", pageIndex := 0, rotation := 0, previewUrl := ""
    hasText := true, textSource := TextSource.native, text := "aaa"
    ocrWords := [], ocrImageSize := Option.none }

/-- A one-page unencrypted document. -/
def sampleDoc : DocumentEntry :=
  { id := "d1", name := "a.pdf", pageCount := 1, encrypted := false
    password := Option.none }

/-- A documents map holding only `sampleDoc`. -/
def sampleDocs : Documents := [("d1", sampleDoc)]

/-- The first page of `sampleDoc`, unrotated and without text. -/
def samplePage : PageInstance :=
  { id := "pg1", documentId := "d1", pageIndex := 0, rotation := 0, previewUrl := ""
    hasText := false, textSource := TextSource.none, text := ""
    ocrWords := [], ocrImageSize := Option.none }

/-- A benign collaborator environment: letter-sized pages, every render
succeeds, no intrinsic rotation, every structural copy validates. -/
def sampleEnv : AssembleEnv :=
  { pageSize := fun _ _ => some (612, 792)
    render := fun _ _ _ _ _ _ _ => Except.ok ⟨612, 792, ImageFormat.jpeg⟩
    intrinsicRotation := fun _ _ => some 0
    structuralAttempt := fun _ _ _ => Except.ok true }

/-- `sampleEnv` with a structural-copy attempt that always throws. -/
def sampleEnvStructFail : AssembleEnv :=
  { sampleEnv with structuralAttempt := fun _ _ _ => Except.error "copy failed" }

/-- A one-page, one-document workspace with an empty undo stack. -/
def sampleState : AppState :=
  { ws := { documents := sampleDocs, documentOrder := ["d1"], pages := [samplePage] }
    undoStack := [] }

/-! ### Properties of `throwMap` and segment parsing -/

theorem throwMap_error_mem {α β ε : Type _} {f : α → Except ε β} :
    ∀ {l : List α} {e : ε}, throwMap f l = Except.error e → ∃ x ∈ l, f x = Except.error e := by
  intro l
  induction l with
  | nil => intro e h; simp [throwMap] at h
  | cons x xs ih =>
    intro e h
    cases h1 : f x with
    | error e1 =>
      simp [throwMap, h1, Bind.bind, Except.bind] at h
      exact ⟨x, List.mem_cons_self x xs, by rw [h1, h]⟩
    | ok y =>
      cases h2 : throwMap f xs with
      | error e2 =>
        simp [throwMap, h1, h2, Bind.bind, Except.bind] at h
        obtain ⟨z, hz, hfx⟩ := ih (h ▸ h2)
        exact ⟨z, List.mem_cons_of_mem x hz, hfx⟩
      | ok ys => simp [throwMap, h1, h2, Bind.bind, Except.bind] at h

theorem throwMap_ok_mem {α β ε : Type _} {f : α → Except ε β} :
    ∀ {l : List α} {ys : List β}, throwMap f l = Except.ok ys →
      ∀ y ∈ ys, ∃ x ∈ l, f x = Except.ok y := by
  intro l
  induction l with
  | nil =>
    intro ys h y hy
    simp [throwMap] at h
    subst h
    simp at hy
  | cons x xs ih =>
    intro ys h y hy
    cases h1 : f x with
    | error e1 => simp [throwMap, h1, Bind.bind, Except.bind] at h
    | ok z =>
      cases h2 : throwMap f xs with
      | error e2 => simp [throwMap, h1, h2, Bind.bind, Except.bind] at h
      | ok zs =>
        simp [throwMap, h1, h2, Bind.bind, Except.bind] at h
        subst h
        rcases List.mem_cons.mp hy with hy | hy
        · exact ⟨x, List.mem_cons_self x xs, hy ▸ h1⟩
        · obtain ⟨w, hw, hfw⟩ := ih h2 y hy
          exact ⟨w, List.mem_cons_of_mem x hw, hfw⟩

/-- Every segment either fails with an error message that names the segment,
or succeeds with an in-bounds range. -/
theorem parseSegment_error_or_ok (t : Int) (seg : List Char) :
    (∃ e, parseSegment t seg = Except.error e ∧
       (e = "Invalid range segment: " ++ String.mk seg ∨
        e = "Range " ++ String.mk seg ++ " is outside the document bounds." ∨
        e = "Invalid page number: " ++ String.mk seg)) ∨
    (∃ r, parseSegment t seg = Except.ok r ∧ 1 ≤ r.start ∧ r.start ≤ r.stop ∧ r.stop ≤ t) := by
  by_cases hm : '-' ∈ seg
  · cases h1 : jsParseInt (((splitOnChar '-' seg)[0]?).getD []) with
    | none => exact Or.inl ⟨_, by simp [parseSegment, hm, h1], Or.inl rfl⟩
    | some startN =>
      cases h2 : jsParseInt (((splitOnChar '-' seg)[1]?).getD []) with
      | none => exact Or.inl ⟨_, by simp [parseSegment, hm, h1, h2], Or.inl rfl⟩
      | some stopN =>
        have hred : parseSegment t seg =
            if startN < 1 ∨ stopN < startN ∨ t < stopN then
              Except.error ("Range " ++ String.mk seg ++ " is outside the document bounds.")
            else Except.ok ⟨startN, stopN⟩ := by
          simp [parseSegment, hm, h1, h2]
        by_cases hb : startN < 1 ∨ stopN < startN ∨ t < stopN
        · exact Or.inl ⟨_, by rw [hred, if_pos hb], Or.inr (Or.inl rfl)⟩
        · refine Or.inr ⟨⟨startN, stopN⟩, by rw [hred, if_neg hb], ?_, ?_, ?_⟩
          · exact (by omega : (1 : ℤ) ≤ startN)
          · exact (by omega : startN ≤ stopN)
          · exact (by omega : stopN ≤ t)
  · cases h1 : jsParseInt seg with
    | none => exact Or.inl ⟨_, by simp [parseSegment, hm, h1], Or.inr (Or.inr rfl)⟩
    | some page =>
      have hred : parseSegment t seg =
          if page < 1 ∨ t < page then
            Except.error ("Invalid page number: " ++ String.mk seg)
          else Except.ok ⟨page, page⟩ := by
        simp [parseSegment, hm, h1]
      by_cases hb : page < 1 ∨ t < page
      · exact Or.inl ⟨_, by rw [hred, if_pos hb], Or.inr (Or.inr rfl)⟩
      · refine Or.inr ⟨⟨page, page⟩, by rw [hred, if_neg hb], ?_, le_refl _, ?_⟩
        · exact (by omega : (1 : ℤ) ≤ page)
        · exact (by omega : page ≤ t)

/-- **C5** — Range-text parsing: `parsePageRanges "1-3,4,5-6" 6` yields the three
ranges `[{1,3},{4,4},{5,6}]`; `parsePageRanges "2-1" 6` fails with the
out-of-bounds range error; the `confirmSplit` surface expands a trimmed `*`
into one singleton range per page; every parse error other than the
empty-input one is produced by some comma-separated token of the
whitespace-stripped input and names that token in its message; and every
range a successful parse returns is in bounds (`1 ≤ start ≤ end ≤ total`),
so out-of-bounds values always fail. -/
theorem claim_C5_range_text_parsing :
    parsePageRanges "1-3,4,5-6" 6 = Except.ok [⟨1, 3⟩, ⟨4, 4⟩, ⟨5, 6⟩] ∧
    parsePageRanges "2-1" 6 = Except.error "Range 2-1 is outside the document bounds." ∧
    confirmSplitRanges "*" 3 = Except.ok [⟨1, 1⟩, ⟨2, 2⟩, ⟨3, 3⟩] ∧
    (∀ v t e, parsePageRanges v t = Except.error e →
      e = "Page ranges cannot be empty." ∨
      ∃ seg ∈ splitOnChar ',' (stripWhitespaceChars v.data),
        parseSegment t seg = Except.error e ∧
        (e = "Invalid range segment: " ++ String.mk seg ∨
         e = "Range " ++ String.mk seg ++ " is outside the document bounds." ∨
         e = "Invalid page number: " ++ String.mk seg)) ∧
    (∀ v t ranges, parsePageRanges v t = Except.ok ranges →
      ∀ r ∈ ranges, 1 ≤ r.start ∧ r.start ≤ r.stop ∧ r.stop ≤ t) := by
  refine ⟨rfl, rfl, rfl, ?_, ?_⟩
  · intro v t e h
    unfold parsePageRanges at h
    by_cases hs : (stripWhitespaceChars v.data).isEmpty
    · simp only [hs, if_true] at h
      exact Or.inl (Except.error.inj h).symm
    · simp only [hs, if_false] at h
      obtain ⟨seg, hseg, herr⟩ := throwMap_error_mem h
      rcases parseSegment_error_or_ok t seg with ⟨e1, he1, hname⟩ | ⟨r, hr, _⟩
      · rw [he1] at herr
        exact Or.inr ⟨seg, hseg, he1.trans (congrArg Except.error (Except.error.inj herr)),
          (Except.error.inj herr) ▸ hname⟩
      · rw [hr] at herr; exact absurd herr (by simp)
  · intro v t ranges h r hr
    unfold parsePageRanges at h
    by_cases hs : (stripWhitespaceChars v.data).isEmpty
    · simp only [hs, if_true] at h
      exact absurd h (by simp)
    · simp only [hs, if_false] at h
      obtain ⟨seg, _, hok⟩ := throwMap_ok_mem h r hr
      rcases parseSegment_error_or_ok t seg with ⟨e1, he1, _⟩ | ⟨r1, hr1, hb1, hb2, hb3⟩
      · rw [he1] at hok; exact absurd hok (by simp)
      · rw [hr1] at hok
        have : r1 = r := Except.ok.inj hok
        exact this ▸ ⟨hb1, hb2, hb3⟩

/-- Witness for C5: the error-naming clause applied at the concrete failing
input `"9,x"` with six total pages (the first token is out of bounds). -/
theorem claim_C5_range_text_parsing_witness :
    "Invalid page number: 9" = "Page ranges cannot be empty." ∨
    ∃ seg ∈ splitOnChar ',' (stripWhitespaceChars ("9,x".data)),
      parseSegment 6 seg = Except.error "Invalid page number: 9" ∧
      ("Invalid page number: 9" = "Invalid range segment: " ++ String.mk seg ∨
       "Invalid page number: 9" = "Range " ++ String.mk seg ++ " is outside the document bounds." ∨
       "Invalid page number: 9" = "Invalid page number: " ++ String.mk seg) :=
  claim_C5_range_text_parsing.2.2.2.1 "9,x" 6 "Invalid page number: 9" rfl

/-! ### Properties of the search scan -/

theorem indexOfFrom_some_facts {hay needle : List Char} {start i : Nat}
    (h : indexOfFrom hay needle start = some i) :
    start ≤ i ∧ matchesAt hay needle i = true ∧ i + needle.length ≤ hay.length := by
  have hp := List.find?_some h
  have hmem := List.mem_of_find?_eq_some h
  rw [List.mem_range] at hmem
  rw [Bool.and_eq_true, decide_eq_true_eq] at hp
  refine ⟨hp.1, hp.2, ?_⟩
  have hpre : needle <+: hay.drop i := by
    have := hp.2
    rw [matchesAt, List.isPrefixOf_iff_prefix] at this
    exact this
  have hlen := hpre.length_le
  rw [List.length_drop] at hlen
  omega

theorem indexOfFrom_eq_none {hay needle : List Char} {start : Nat}
    (h : indexOfFrom hay needle start = Option.none) :
    ∀ j, start ≤ j → j ≤ hay.length → matchesAt hay needle j = false := by
  intro j hj hjl
  by_contra hmatch
  rw [Bool.not_eq_false] at hmatch
  have : (indexOfFrom hay needle start).isSome = true := by
    rw [indexOfFrom, List.find?_isSome]
    exact ⟨j, List.mem_range.mpr (by omega), by
      rw [Bool.and_eq_true, decide_eq_true_eq]; exact ⟨hj, hmatch⟩⟩
  rw [h] at this
  simp at this

/-- `find?` over `range n` returns the least index satisfying the predicate. -/
theorem find?_range_min {n : Nat} {p : Nat → Bool} {i : Nat}
    (h : (List.range n).find? p = some i) : ∀ j, j < i → p j = false := by
  rw [List.find?_eq_some] at h
  obtain ⟨hp, as, bs, hsplit, hall⟩ := h
  intro j hj
  have hlen : as.length < n := by
    have hcong := congrArg List.length hsplit
    simp at hcong
    omega
  have hi : i = as.length := by
    have h1 : (List.range n)[as.length]? = some as.length := List.getElem?_range hlen
    rw [hsplit, List.getElem?_append_right (le_refl _)] at h1
    simp at h1
    omega
  have hjn : (List.range n)[j]? = some j := List.getElem?_range (by omega)
  rw [hsplit, List.getElem?_append] at hjn
  rw [if_pos (by omega)] at hjn
  have hjmem : j ∈ as := List.getElem?_mem hjn
  have := hall j hjmem
  simpa using this

theorem indexOfFrom_min {hay needle : List Char} {start i : Nat}
    (h : indexOfFrom hay needle start = some i) :
    ∀ j, start ≤ j → j < i → matchesAt hay needle j = false := by
  intro j hj hji
  have := find?_range_min h j hji
  rw [Bool.and_eq_false_iff] at this
  rcases this with h1 | h1
  · rw [decide_eq_false_iff_not] at h1; omega
  · exact h1

theorem greedyScanAux_sound (hay needle : List Char) :
    ∀ fuel start, ∀ i ∈ greedyScanAux hay needle fuel start,
      start ≤ i ∧ matchesAt hay needle i = true := by
  intro fuel
  induction fuel with
  | zero => intro start i h; simp [greedyScanAux] at h
  | succ f ih =>
    intro start i h
    cases hf : indexOfFrom hay needle start with
    | none => rw [greedyScanAux, hf] at h; simp at h
    | some k =>
      rw [greedyScanAux, hf] at h
      have hk := indexOfFrom_some_facts hf
      rcases List.mem_cons.mp h with rfl | h
      · exact ⟨hk.1, hk.2.1⟩
      · have h2 := ih _ _ h
        exact ⟨by omega, h2.2⟩

theorem greedyScanAux_pairwise (hay needle : List Char) :
    ∀ fuel start, (greedyScanAux hay needle fuel start).Pairwise
      (fun a b => a + needle.length ≤ b) := by
  intro fuel
  induction fuel with
  | zero => intro start; simp [greedyScanAux]
  | succ f ih =>
    intro start
    cases hf : indexOfFrom hay needle start with
    | none => rw [greedyScanAux, hf]; simp
    | some k =>
      rw [greedyScanAux, hf]
      rw [List.pairwise_cons]
      exact ⟨fun b hb => (greedyScanAux_sound hay needle f (k + needle.length) b hb).1, ih _⟩

theorem greedyScanAux_complete (hay needle : List Char) (hne : needle ≠ []) :
    ∀ fuel start, hay.length + 1 ≤ fuel + start →
      ∀ j, start ≤ j → matchesAt hay needle j = true →
        ∃ i ∈ greedyScanAux hay needle fuel start, i ≤ j ∧ j < i + needle.length := by
  have hnlen : 1 ≤ needle.length := by
    cases needle with
    | nil => exact absurd rfl hne
    | cons a l => simp
  intro fuel
  induction fuel with
  | zero =>
    intro start hfs j hj hmatch
    exfalso
    have hpre : needle <+: hay.drop j := by
      rw [matchesAt, List.isPrefixOf_iff_prefix] at hmatch
      exact hmatch
    have := hpre.length_le
    rw [List.length_drop] at this
    omega
  | succ f ih =>
    intro start hfs j hj hmatch
    have hjl : j + needle.length ≤ hay.length := by
      have hpre : needle <+: hay.drop j := by
        rw [matchesAt, List.isPrefixOf_iff_prefix] at hmatch
        exact hmatch
      have := hpre.length_le
      rw [List.length_drop] at this
      omega
    cases hf : indexOfFrom hay needle start with
    | none =>
      exact absurd hmatch (by
        rw [indexOfFrom_eq_none hf j hj (by omega)]; simp)
    | some k =>
      have hk := indexOfFrom_some_facts hf
      rw [greedyScanAux, hf]
      by_cases hcase : j < k + needle.length
      · have hkj : k ≤ j := by
          by_contra hlt
          push_neg at hlt
          have := indexOfFrom_min hf j hj hlt
          rw [hmatch] at this
          simp at this
        exact ⟨k, List.mem_cons_self _ _, hkj, hcase⟩
      · push_neg at hcase
        obtain ⟨i, hi, hij⟩ := ih (k + needle.length) (by omega) j (by omega) hmatch
        exact ⟨i, List.mem_cons_of_mem _ hi, hij⟩

theorem greedyScan_sound (hay needle : List Char) :
    ∀ i ∈ greedyScan hay needle, matchesAt hay needle i = true := by
  intro i h
  rw [greedyScan] at h
  by_cases hn : needle.isEmpty
  · rw [if_pos hn] at h; simp at h
  · rw [if_neg hn] at h
    exact (greedyScanAux_sound hay needle _ 0 i h).2

theorem greedyScan_pairwise (hay needle : List Char) :
    (greedyScan hay needle).Pairwise (fun a b => a + needle.length ≤ b) := by
  rw [greedyScan]
  by_cases hn : needle.isEmpty
  · rw [if_pos hn]; simp
  · rw [if_neg hn]; exact greedyScanAux_pairwise hay needle _ 0

theorem greedyScan_complete (hay needle : List Char) (hne : needle ≠ []) :
    ∀ j, matchesAt hay needle j = true →
      ∃ i ∈ greedyScan hay needle, i ≤ j ∧ j < i + needle.length := by
  intro j hmatch
  rw [greedyScan, if_neg (by simpa [List.isEmpty_iff] using hne)]
  exact greedyScanAux_complete hay needle hne _ 0 (by omega) j (Nat.zero_le j) hmatch

/-! ### Properties of snippet construction -/

theorem collapseWsAux_length_le : ∀ (b : Bool) (l : List Char),
    (collapseWsAux b l).length ≤ l.length := by
  intro b l
  induction l generalizing b with
  | nil => simp [collapseWsAux]
  | cons c rest ih =>
    rw [collapseWsAux]
    by_cases hw : c.isWhitespace
    · rw [if_pos hw]
      cases b with
      | true => simpa using Nat.le_succ_of_le (ih true)
      | false => simpa using ih true
    · rw [if_neg hw]
      simpa using ih false

theorem trimChars_length_le (l : List Char) : (trimChars l).length ≤ l.length := by
  rw [trimChars]
  calc ((l.dropWhile Char.isWhitespace).reverse.dropWhile Char.isWhitespace).reverse.length
      = ((l.dropWhile Char.isWhitespace).reverse.dropWhile Char.isWhitespace).length := by
        rw [List.length_reverse]
    _ ≤ (l.dropWhile Char.isWhitespace).reverse.length := (List.dropWhile_sublist _).length_le
    _ = (l.dropWhile Char.isWhitespace).length := by rw [List.length_reverse]
    _ ≤ l.length := (List.dropWhile_sublist _).length_le

theorem mkSnippet_length_le (text : List Char) (offset qlen : Nat) :
    (mkSnippet text offset qlen).length ≤ qlen + 80 := by
  rw [mkSnippet, collapseWs]
  have h1 := trimChars_length_le
    (collapseWsAux false (jsSlice text (offset - 40) (min text.length (offset + qlen + 40))))
  have h2 := collapseWsAux_length_le false
    (jsSlice text (offset - 40) (min text.length (offset + qlen + 40)))
  have h3 : (jsSlice text (offset - 40) (min text.length (offset + qlen + 40))).length ≤
      qlen + 80 := by
    rw [jsSlice, List.length_drop, List.length_take]
    omega
  omega

/-! ### C6 — search -/

/-- **C6**, counterexample: the claim says *every* occurrence is recorded, but
occurrences are counted by a scan that resumes past the end of each match, so
overlapping occurrences are not all recorded: in the page text `"aaa"` the
query `"aa"` occurs at offsets 0 and 1, yet the search records exactly one
match for that page. -/
theorem claim_C6_search_counterexample :
    allOccurrences (jsToLower "aaa".data) (jsToLower "aa".data) = [0, 1] ∧
    (searchPage samplePageAAA "aa").length = 1 :=
  ⟨rfl, rfl⟩

/-- **C6** (amended) — Search is case-insensitive substring matching over each
page's cached text.  An empty (after trimming) query yields zero matches with
the descriptive error `Enter text to search for.`; a page with empty cached
text — in particular any page the loader tagged `textSource = none`, whose
cached text the loader sets to `""` — never yields matches.  Every recorded
match of a page carries a true case-insensitive occurrence offset of the
query in that page's text, the snippet built from up to 40 characters of
context on each side of that offset (whitespace-collapsed, hence of length at
most `query.length + 80`), and its occurrence index within the page (the
`k`-th recorded match of a page has `occurrence = k`).  Recorded occurrences
are in strictly increasing (left-to-right) text order, separated by at least
the query length, and they are greedily complete: every occurrence offset
either is recorded or overlaps a recorded occurrence starting no later
(overlapping repetitions are not separately recorded — the correction forced
by the counterexample). -/
theorem claim_C6_search_amended :
    (∀ pages rawQuery, jsTrim rawQuery = "" →
      handleSearchSubmit pages rawQuery = ⟨some "Enter text to search for.", []⟩) ∧
    (∀ p query, p.text = "" → searchPage p query = []) ∧
    (∀ o p, p ∈ pagesOfLoaded o → p.textSource = TextSource.none → p.text = "") ∧
    (∀ p query, ∀ m ∈ searchPage p query,
      ∃ offset, matchesAt (jsToLower p.text.data) (jsToLower query.data) offset = true ∧
        m.snippet = String.mk (mkSnippet p.text.data offset query.length) ∧
        m.snippet.length ≤ query.length + 80 ∧ m.pageId = p.id) ∧
    (∀ (p : PageInstance) (query : String) (k : Nat) (m : SearchMatch),
      (searchPage p query)[k]? = some m → m.occurrence = k) ∧
    (∀ (p : PageInstance) (query : String),
      (greedyScan (jsToLower p.text.data) (jsToLower query.data)).Pairwise
        (fun a b => a + query.length ≤ b)) ∧
    (∀ (p : PageInstance) (query : String), query ≠ "" → ∀ j,
      matchesAt (jsToLower p.text.data) (jsToLower query.data) j = true →
      ∃ i ∈ greedyScan (jsToLower p.text.data) (jsToLower query.data),
        i ≤ j ∧ j < i + query.length) := by
  have hqlen : ∀ query : String, (jsToLower query.data).length = query.length := by
    intro query
    rw [jsToLower, List.length_map]
    rfl
  refine ⟨?_, ?_, ?_, ?_, ?_, ?_, ?_⟩
  · intro pages rawQuery hq
    rw [handleSearchSubmit]
    simp only [hq, if_pos rfl]
    rw [if_pos trivial]
  · intro p query hp
    rw [searchPage]
    simp [hp]
  · intro o p hp hsrc
    rw [pagesOfLoaded] at hp
    obtain ⟨pageIndex, _, rfl⟩ := List.mem_map.mp hp
    simp only at hsrc ⊢
    by_cases ht : (!(o.texts pageIndex).isEmpty && !(jsTrim (o.texts pageIndex)).isEmpty) = true
    · simp only [ht, if_pos rfl] at hsrc
      exact absurd hsrc (by simp)
    · rw [if_neg ht]
  · intro p query m hm
    rw [searchPage] at hm
    by_cases he : p.text.data.isEmpty
    · simp [he] at hm
    · simp only [he, Bool.false_eq_true, if_false] at hm
      obtain ⟨oi, hoi, rfl⟩ := List.mem_map.mp hm
      have hoff : oi.2 ∈ greedyScan (jsToLower p.text.data) (jsToLower query.data) := by
        have := List.mk_mem_enum_iff_getElem?.mp (by
          show (oi.1, oi.2) ∈ _
          simpa using hoi)
        exact List.getElem?_mem this
      refine ⟨oi.2, greedyScan_sound _ _ _ hoff, rfl, ?_, rfl⟩
      show (String.mk (mkSnippet p.text.data oi.2 query.length)).length ≤ query.length + 80
      have : (String.mk (mkSnippet p.text.data oi.2 query.length)).length =
          (mkSnippet p.text.data oi.2 query.length).length := rfl
      rw [this]
      exact mkSnippet_length_le _ _ _
  · intro p query k m h
    rw [searchPage] at h
    by_cases he : p.text.data.isEmpty
    · simp [he] at h
    · simp only [he, Bool.false_eq_true, if_false] at h
      rw [List.getElem?_map, List.getElem?_enum] at h
      cases hg : (greedyScan (jsToLower p.text.data) (jsToLower query.data))[k]? with
      | none => rw [hg] at h; simp at h
      | some off =>
        rw [hg, Option.map_some'] at h
        have := (Option.some.inj h).symm
        rw [this]
  · intro p query
    have := greedyScan_pairwise (jsToLower p.text.data) (jsToLower query.data)
    rw [hqlen query] at this
    exact this
  · intro p query hq j hmatch
    have hne : jsToLower query.data ≠ [] := by
      rw [jsToLower]
      simp only [ne_eq, List.map_eq_nil_iff]
      intro hdata
      exact hq (by
        cases query with
        | mk data => simp at hdata; rw [hdata])
    have := greedyScan_complete (jsToLower p.text.data) (jsToLower query.data) hne j hmatch
    rw [hqlen query] at this
    exact this

/-- Witness for C6 (amended): the empty-query clause at the concrete blank
query `"  "` over the empty workspace. -/
theorem claim_C6_search_amended_witness :
    handleSearchSubmit [] "  " = ⟨some "Enter text to search for.", []⟩ :=
  claim_C6_search_amended.1 [] "  " rfl

/-! ### C7 — highlight-rectangle rotation mapping -/

/-- **C7** — For a displayed rotation of 90°, every native-path highlight
rectangle computed in the un-rotated coordinate space (un-rotated page height
`H`) is mapped to `{x : H-(y+height), y : x, width : height, height : width}`;
for 180° both axes are mirrored; and for 0° rectangles are returned
unchanged. -/
theorem claim_C7_highlight_rotation :
    (∀ (W H : ℚ) (rects : List TextRect),
      applyRotationMapping 90 W H rects =
        rects.map (fun r => ⟨H - (r.y + r.height), r.x, r.height, r.width⟩)) ∧
    (∀ (W H : ℚ) (rects : List TextRect),
      applyRotationMapping 180 W H rects =
        rects.map (fun r => ⟨W - (r.x + r.width), H - (r.y + r.height), r.width, r.height⟩)) ∧
    (∀ (W H : ℚ) (rects : List TextRect), applyRotationMapping 0 W H rects = rects) := by
  refine ⟨fun W H rects => rfl, fun W H rects => rfl, fun W H rects => rfl⟩

/-! ### C3 — pixel-budget DPI adaptation -/

/-- For a nonnegative real, the floor of the square root is the `Nat.sqrt` of
the floor: there is no integer between them in either direction. -/
theorem floor_sqrt_eq_sqrt_floor (x : ℝ) (hx : 0 ≤ x) :
    ⌊Real.sqrt x⌋ = (Nat.sqrt (⌊x⌋).toNat : ℤ) := by
  have hfl0 : (0 : ℤ) ≤ ⌊x⌋ := Int.floor_nonneg.mpr hx
  set n := (⌊x⌋).toNat with hn
  have hnx : ((n : ℝ)) ≤ x := by
    have h1 : ((n : ℤ) : ℝ) ≤ x := by
      rw [hn, Int.toNat_of_nonneg hfl0]
      exact Int.floor_le x
    exact_mod_cast h1
  have hxn : x < (n : ℝ) + 1 := by
    have h1 : x < ((⌊x⌋ : ℤ) : ℝ) + 1 := Int.lt_floor_add_one x
    have h2 : ((⌊x⌋ : ℤ) : ℝ) = ((n : ℕ) : ℝ) := by
      rw [hn]
      exact_mod_cast (Int.toNat_of_nonneg hfl0).symm
    rw [h2] at h1
    exact h1
  rw [Int.floor_eq_iff]
  constructor
  · show ((Nat.sqrt n : ℤ) : ℝ) ≤ Real.sqrt x
    push_cast
    rcases Nat.eq_zero_or_pos (Nat.sqrt n) with hz | hpos
    · rw [hz]; push_cast; exact Real.sqrt_nonneg x
    · rw [Real.le_sqrt' (by exact_mod_cast hpos)]
      calc ((Nat.sqrt n : ℝ)) ^ 2 = ((Nat.sqrt n ^ 2 : ℕ) : ℝ) := by push_cast; ring
        _ ≤ (n : ℝ) := by exact_mod_cast Nat.sqrt_le' n
        _ ≤ x := hnx
  · show Real.sqrt x < ((Nat.sqrt n : ℤ) : ℝ) + 1
    have hlt : Real.sqrt x < ((Nat.sqrt n : ℝ)) + 1 := by
      rw [Real.sqrt_lt' (by positivity)]
      calc x < (n : ℝ) + 1 := hxn
        _ ≤ ((Nat.sqrt n : ℝ) + 1) ^ 2 := by
          have h2 : n + 1 ≤ (Nat.sqrt n + 1) ^ 2 := Nat.lt_succ_sqrt' n
          have h3 : ((n + 1 : ℕ) : ℝ) ≤ (((Nat.sqrt n + 1) ^ 2 : ℕ) : ℝ) := by exact_mod_cast h2
          push_cast at h3
          linarith
    exact_mod_cast hlt

/-- `unclampedDpi` is exactly the source's
`Math.floor(targetDpi * Math.sqrt(maxPixels / pixels))` over exact reals. -/
theorem unclampedDpi_eq_floor_sqrt (dpi : Nat) (widthPts heightPts maxPixels : ℚ)
    (hmax : 0 ≤ maxPixels) (hpix : 0 < naivePixels dpi widthPts heightPts) :
    (unclampedDpi dpi widthPts heightPts maxPixels : ℤ) =
      ⌊(dpi : ℝ) * Real.sqrt ((maxPixels : ℝ) /
        ((naivePixels dpi widthPts heightPts : ℚ) : ℝ))⌋ := by
  have hpixR : (0 : ℝ) < ((naivePixels dpi widthPts heightPts : ℚ) : ℝ) := by exact_mod_cast hpix
  have hmaxR : (0 : ℝ) ≤ ((maxPixels : ℚ) : ℝ) := by exact_mod_cast hmax
  have hmul : (dpi : ℝ) * Real.sqrt ((maxPixels : ℝ) /
      ((naivePixels dpi widthPts heightPts : ℚ) : ℝ)) =
      Real.sqrt (((dpi : ℚ) ^ 2 * maxPixels / naivePixels dpi widthPts heightPts : ℚ) : ℝ) := by
    have hsq : (((dpi : ℚ) ^ 2 * maxPixels / naivePixels dpi widthPts heightPts : ℚ) : ℝ) =
        ((dpi : ℝ)) ^ 2 * (((maxPixels : ℚ) : ℝ) /
          ((naivePixels dpi widthPts heightPts : ℚ) : ℝ)) := by
      push_cast
      ring
    rw [hsq, Real.sqrt_mul (by positivity), Real.sqrt_sq (by positivity)]
  rw [hmul, unclampedDpi]
  have hx0 : (0 : ℝ) ≤ (((dpi : ℚ) ^ 2 * maxPixels / naivePixels dpi widthPts heightPts : ℚ) : ℝ) := by
    have : (0 : ℚ) ≤ (dpi : ℚ) ^ 2 * maxPixels / naivePixels dpi widthPts heightPts := by
      positivity
    exact_mod_cast this
  rw [floor_sqrt_eq_sqrt_floor _ hx0]
  rw [Rat.floor_cast]

/-- **C3**, counterexample: on a 4000×4000-point page at the `ultra_compact`
preset (72 DPI), the naive pixel count (16 MP) exceeds the 10 MP primary
budget, yet the 72-DPI clamp makes the effective DPI equal — not strictly
less than — the preset DPI, and the pixel count at the effective DPI still
exceeds the budget. -/
theorem claim_C3_pixel_budget_counterexample :
    (COMPRESSION_PRESETS CompressionPreset.ultra_compact).dpi = some 72 ∧
    MAX_PIXELS < naivePixels 72 4000 4000 ∧
    effectiveDpi 72 4000 4000 MAX_PIXELS = 72 ∧
    ¬ effectiveDpi 72 4000 4000 MAX_PIXELS < 72 ∧
    MAX_PIXELS < naivePixels (effectiveDpi 72 4000 4000 MAX_PIXELS) 4000 4000 := by
  have hsqrt : Nat.sqrt 3240 = 56 := by
    have h1 : 56 ≤ Nat.sqrt 3240 := Nat.le_sqrt.mpr (by norm_num)
    have h2 : Nat.sqrt 3240 < 57 := Nat.sqrt_lt.mpr (by norm_num)
    omega
  have hpix : naivePixels 72 4000 4000 = 16000000 := by
    rw [naivePixels]; norm_num
  have hover : MAX_PIXELS < naivePixels 72 4000 4000 := by
    rw [hpix, MAX_PIXELS]; norm_num
  have hq : ((72 : ℚ) ^ 2 * MAX_PIXELS / naivePixels 72 4000 4000 : ℚ) = 3240 := by
    rw [hpix, MAX_PIXELS]; norm_num
  have hun : unclampedDpi 72 4000 4000 MAX_PIXELS = 56 := by
    rw [unclampedDpi]
    rw [show (((72 : Nat) : ℚ) ^ 2 * MAX_PIXELS / naivePixels 72 4000 4000 : ℚ) =
        ((3240 : ℤ) : ℚ) from by rw [hpix, MAX_PIXELS]; norm_num]
    rw [Int.floor_intCast]
    rw [show ((3240 : ℤ).toNat) = 3240 from rfl]
    exact hsqrt
  have heff : effectiveDpi 72 4000 4000 MAX_PIXELS = 72 := by
    rw [effectiveDpi, if_pos hover, hun]
    decide
  exact ⟨rfl, hover, heff, by rw [heff]; omega, by rw [heff]; exact hover⟩

/-- **C3** (amended) — For any page whose naive pixel count at the configured
DPI exceeds the pixel budget (10 MP on the primary encode path, 8 MP on the
rasterize-fallback path — the statement is uniform in the budget), the
effective DPI is `max 72 ⌊dpi·√(budget/pixels)⌋`; it is never below 72, and
whenever the 72-DPI clamp does not bind (the scaled-down value is itself at
least 72) the effective DPI is strictly less than the configured DPI and the
pixel count at the effective DPI is at most the budget.  (When the clamp
binds, the effective DPI is 72, which can equal the configured DPI and leave
the pixel count above the budget — the correction forced by the
counterexample.) -/
theorem claim_C3_pixel_budget_amended (dpi : Nat) (widthPts heightPts maxPixels : ℚ)
    (hdpi : 72 ≤ dpi) (hmax : 0 < maxPixels)
    (hover : maxPixels < naivePixels dpi widthPts heightPts) :
    effectiveDpi dpi widthPts heightPts maxPixels =
      max 72 (unclampedDpi dpi widthPts heightPts maxPixels) ∧
    72 ≤ effectiveDpi dpi widthPts heightPts maxPixels ∧
    (72 ≤ unclampedDpi dpi widthPts heightPts maxPixels →
      effectiveDpi dpi widthPts heightPts maxPixels < dpi ∧
      naivePixels (effectiveDpi dpi widthPts heightPts maxPixels) widthPts heightPts ≤
        maxPixels) := by
  have heq : effectiveDpi dpi widthPts heightPts maxPixels =
      max 72 (unclampedDpi dpi widthPts heightPts maxPixels) := by
    rw [effectiveDpi, if_pos hover]
  have hppos : (0 : ℚ) < naivePixels dpi widthPts heightPts := lt_trans hmax hover
  have hdpiQ : (0 : ℚ) < (dpi : ℚ) := by
    have : (0 : ℕ) < dpi := by omega
    exact_mod_cast this
  set p := naivePixels dpi widthPts heightPts with hp
  set q : ℚ := (dpi : ℚ) ^ 2 * maxPixels / p with hqdef
  have hq0 : 0 ≤ q := by positivity
  have hqlt : q < (dpi : ℚ) ^ 2 := by
    rw [hqdef, div_lt_iff₀ hppos]
    have := mul_lt_mul_of_pos_left hover (show (0:ℚ) < (dpi : ℚ) ^ 2 by positivity)
    linarith
  set N := (⌊q⌋).toNat with hNdef
  have hNq : ((N : ℚ)) ≤ q := by
    have h1 : (0 : ℤ) ≤ ⌊q⌋ := Int.floor_nonneg.mpr hq0
    have h2 : ((⌊q⌋ : ℤ) : ℚ) ≤ q := Int.floor_le q
    rw [hNdef]
    calc (((⌊q⌋).toNat : ℕ) : ℚ) = ((⌊q⌋ : ℤ) : ℚ) := by exact_mod_cast Int.toNat_of_nonneg h1
      _ ≤ q := h2
  have hunN : unclampedDpi dpi widthPts heightPts maxPixels = Nat.sqrt N := by
    rw [unclampedDpi, hNdef, hqdef, hp]
  have hsqN : ((Nat.sqrt N * Nat.sqrt N : ℕ) : ℚ) ≤ q :=
    le_trans (by exact_mod_cast Nat.sqrt_le N) hNq
  have hlt : Nat.sqrt N < dpi := by
    have hNlt : ((N : ℚ)) < ((dpi * dpi : ℕ) : ℚ) := by
      calc ((N : ℚ)) ≤ q := hNq
        _ < (dpi : ℚ) ^ 2 := hqlt
        _ = ((dpi * dpi : ℕ) : ℚ) := by push_cast; ring
    have hNlt' : N < dpi * dpi := by exact_mod_cast hNlt
    by_contra hge
    push_neg at hge
    have := Nat.mul_le_mul hge hge
    have := le_trans this (Nat.sqrt_le N)
    omega
  refine ⟨heq, by rw [heq]; exact le_max_left _ _, ?_⟩
  intro hclamp
  have heff : effectiveDpi dpi widthPts heightPts maxPixels = Nat.sqrt N := by
    rw [heq, hunN] at *
    exact max_eq_right hclamp
  constructor
  · rw [heff]; exact hlt
  · rw [heff]
    set e := Nat.sqrt N with he
    have hscale : naivePixels e widthPts heightPts = p * ((e : ℚ) ^ 2 / (dpi : ℚ) ^ 2) := by
      rw [hp, naivePixels, naivePixels]
      field_simp
      ring
    rw [hscale]
    have hesq : ((e : ℚ)) ^ 2 ≤ q := by
      calc ((e : ℚ)) ^ 2 = ((e * e : ℕ) : ℚ) := by push_cast; ring
        _ ≤ q := hsqN
    rw [hqdef] at hesq
    rw [le_div_iff₀ hppos] at hesq
    have hgoal : p * ((e : ℚ) ^ 2 / (dpi : ℚ) ^ 2) = p * (e : ℚ) ^ 2 / (dpi : ℚ) ^ 2 := by
      ring
    rw [hgoal, div_le_iff₀ (show (0:ℚ) < (dpi : ℚ) ^ 2 by positivity)]
    linarith

/-- Witness for C3 (amended): a 1000×1000-point page at the `high` preset
(300 DPI) against the 10 MP primary budget — the naive pixel count is about
17.4 MP, the scaled-down DPI is 227 (≥ 72, so the clamp does not bind), and
both budget conclusions follow. -/
theorem claim_C3_pixel_budget_amended_witness :
    effectiveDpi 300 1000 1000 MAX_PIXELS < 300 ∧
    naivePixels (effectiveDpi 300 1000 1000 MAX_PIXELS) 1000 1000 ≤ MAX_PIXELS := by
  have hover : MAX_PIXELS < naivePixels 300 1000 1000 := by
    rw [MAX_PIXELS, naivePixels]; norm_num
  have hmain := claim_C3_pixel_budget_amended 300 1000 1000 MAX_PIXELS (by norm_num)
    (by rw [MAX_PIXELS]; norm_num) hover
  refine hmain.2.2 ?_
  rw [unclampedDpi]
  rw [show (((300 : Nat) : ℚ) ^ 2 * MAX_PIXELS / naivePixels 300 1000 1000 : ℚ) =
      ((51840 : ℤ) : ℚ) from by rw [MAX_PIXELS, naivePixels]; norm_num]
  rw [Int.floor_intCast]
  rw [show ((51840 : ℤ).toNat) = 51840 from rfl]
  exact Nat.le_sqrt.mpr (by norm_num)

/-! ### Assembly-engine lemmas -/

theorem mapError_ok_iff {ε ε' α : Type _} (f : ε → ε') (x : Except ε α) (a : α) :
    x.mapError f = Except.ok a ↔ x = Except.ok a := by
  cases x <;> simp [Except.mapError]

theorem rasterPage_ok_length {env : AssembleEnv} {docs : Documents}
    {settings : PresetSettings} {bake : Bool} {p : PageInstance} {d : DocumentEntry}
    {out : List OutPage} (hd : lookupDoc docs p.documentId = some d)
    (h : rasterPage env docs settings bake p = Except.ok out) : out.length = 1 := by
  simp only [rasterPage, hd] at h
  cases hr : env.render p.documentId p.pageIndex
      (effectiveDpi (settings.dpi.getD 150)
        ((env.pageSize p.documentId p.pageIndex).getD (612, 792)).1
        ((env.pageSize p.documentId p.pageIndex).getD (612, 792)).2 MAX_PIXELS)
      settings.format (settings.quality.getD (8/10)) d.password
      (if bake then p.rotation else 0) with
  | error e => rw [hr] at h; simp [Except.map] at h
  | ok bmp =>
    rw [hr] at h
    simp only [Except.map] at h
    rw [← Except.ok.inj h]
    rfl

theorem rasterizePageInto_ok_length {env : AssembleEnv} {docs : Documents}
    {bake : Bool} {p : PageInstance} {d : DocumentEntry} {out : List OutPage}
    (hd : lookupDoc docs p.documentId = some d)
    (h : rasterizePageInto env docs bake p = Except.ok out) : out.length = 1 := by
  simp only [rasterizePageInto, hd] at h
  cases hr : env.render p.documentId p.pageIndex
      (effectiveDpi 150 ((env.pageSize p.documentId p.pageIndex).getD (612, 792)).1
        ((env.pageSize p.documentId p.pageIndex).getD (612, 792)).2 MAX_PIXELS_FALLBACK)
      ImageFormat.jpeg (7/10) d.password (if bake then p.rotation else 0) with
  | error e => rw [hr] at h; simp [Except.map] at h
  | ok bmp =>
    rw [hr] at h
    simp only [Except.map] at h
    rw [← Except.ok.inj h]
    rfl

theorem processStructuralPage_ok_length {env : AssembleEnv} {docs : Documents}
    {bake : Bool} {p : PageInstance} {d : DocumentEntry} {out : List OutPage}
    (hd : lookupDoc docs p.documentId = some d)
    (h : processStructuralPage env docs bake p = Except.ok out) : out.length = 1 := by
  simp only [processStructuralPage, hd] at h
  by_cases henc : d.encrypted
  · rw [if_pos henc] at h
    exact rasterizePageInto_ok_length hd h
  · rw [if_neg henc] at h
    set bakeForcesRaster : Bool :=
      (if bake then
        match env.intrinsicRotation p.documentId p.pageIndex with
        | Option.none => true
        | some intrinsic => intrinsic % 360 ≠ 0 ∨ p.rotation % 360 ≠ 0
      else false) with hbf
    by_cases hforce : bakeForcesRaster
    · rw [if_pos hforce] at h
      exact rasterizePageInto_ok_length hd h
    · rw [if_neg hforce] at h
      cases hs : env.structuralAttempt p.documentId p.pageIndex
          (structuralRotationSet env bake p) with
      | error e =>
        simp only [hs, Bind.bind, Except.bind] at h
        exact rasterizePageInto_ok_length hd h
      | ok ok? =>
        simp only [hs, Bind.bind, Except.bind] at h
        by_cases hv : ok?
        · rw [if_pos hv] at h
          rw [← Except.ok.inj h]
          rfl
        · rw [if_neg hv] at h
          cases hrp : rasterizePageInto env docs bake p with
          | error e =>
            rw [hrp] at h
            exact absurd h (by simp)
          | ok o =>
            rw [hrp] at h
            rw [← Except.ok.inj h]
            exact rasterizePageInto_ok_length hd hrp

theorem processPages_ok_length {f : PageInstance → Except String (List OutPage)} :
    ∀ {l : List PageInstance} {out : List OutPage},
      (∀ p ∈ l, ∀ o, f p = Except.ok o → o.length = 1) →
      processPages f l = Except.ok out → out.length = l.length := by
  intro l
  induction l with
  | nil =>
    intro out _ h
    rw [processPages] at h
    rw [← Except.ok.inj h]
    rfl
  | cons p rest ih =>
    intro out hf h
    cases hp : f p with
    | error e =>
      simp only [processPages, hp, Bind.bind, Except.bind] at h
      exact absurd h (by simp)
    | ok o =>
      cases hrest : processPages f rest with
      | error e =>
        simp only [processPages, hp, hrest, Bind.bind, Except.bind] at h
        exact absurd h (by simp)
      | ok os =>
        simp only [processPages, hp, hrest, Bind.bind, Except.bind] at h
        rw [← Except.ok.inj h]
        rw [List.length_append]
        have h1 : o.length = 1 := hf p (List.mem_cons_self _ _) o hp
        have h2 : os.length = rest.length :=
          ih (fun q hq => hf q (List.mem_cons_of_mem _ hq)) hrest
        rw [h1, h2, List.length_cons]
        omega

/-- A completed assembly over resolving documents has exactly one output page
per input page (shared engine lemma behind C2 and the merge/split invariant
preservation). -/
theorem assemble_ok_length {env : AssembleEnv} {docs : Documents}
    {pageList : List PageInstance} {preset : CompressionPreset} {bake : Bool}
    {out : List OutPage}
    (hres : ∀ p ∈ pageList, (lookupDoc docs p.documentId).isSome)
    (h : assemblePdfFromPages env docs pageList preset bake = Except.ok out) :
    out.length = pageList.length := by
  rw [assemblePdfFromPages] at h
  by_cases hne : pageList.isEmpty
  · rw [if_pos hne] at h
    exact absurd h (by simp)
  · rw [if_neg hne] at h
    by_cases hrr : requiresRaster docs pageList preset
    · rw [if_pos hrr, mapError_ok_iff] at h
      refine processPages_ok_length ?_ h
      intro p hp o ho
      obtain ⟨d, hd⟩ := Option.isSome_iff_exists.mp (hres p hp)
      exact rasterPage_ok_length hd ho
    · rw [if_neg hrr, mapError_ok_iff] at h
      refine processPages_ok_length ?_ h
      intro p hp o ho
      obtain ⟨d, hd⟩ := Option.isSome_iff_exists.mp (hres p hp)
      exact processStructuralPage_ok_length hd ho

/-! ### C2 — assemble adds exactly one output page per input page -/

/-- **C2** — For every non-empty page list whose referenced documents all
resolve, a completed `assemblePdfFromPages` call adds exactly one output page
per input `PageInstance` on both the global-raster path and the
structural-copy path, so the page count of the returned document equals the
length of the input list, for every compression preset and either value of
`bakeRotation`. -/
theorem claim_C2_assemble_page_count (env : AssembleEnv) (docs : Documents)
    (pageList : List PageInstance) (preset : CompressionPreset) (bake : Bool)
    (out : List OutPage) (hne : pageList ≠ [])
    (hres : ∀ p ∈ pageList, (lookupDoc docs p.documentId).isSome)
    (h : assemblePdfFromPages env docs pageList preset bake = Except.ok out) :
    out.length = pageList.length :=
  assemble_ok_length hres h

/-- Witness for C2: a one-page workspace assembled with preset `none` under
the benign environment produces exactly one output page. -/
theorem claim_C2_assemble_page_count_witness :
    ([OutPage.structural "d1" 0 Option.none] : List OutPage).length =
      ([samplePage] : List PageInstance).length :=
  claim_C2_assemble_page_count sampleEnv sampleDocs [samplePage] CompressionPreset.none true
    [OutPage.structural "d1" 0 Option.none] (by simp)
    (by intro p hp; rw [List.mem_singleton.mp hp]; exact Option.isSome_some) rfl

/-! ### C1 — which inputs raise the empty/missing-document failure -/

/-- **C1**, counterexample: a non-empty page list whose (only) page references
a missing `SourceDocument` does **not** fail with an `AssemblyError` — the
page is silently skipped and the call returns an empty document. -/
theorem claim_C1_assembly_error_counterexample :
    assemblePdfFromPages sampleEnv [] [samplePage] CompressionPreset.none true =
      Except.ok [] ∧
    ¬ ∃ msg, assemblePdfFromPages sampleEnv [] [samplePage] CompressionPreset.none true =
      Except.error (AsmError.assemblyError msg) := by
  refine ⟨rfl, ?_⟩
  rintro ⟨msg, hmsg⟩
  rw [show assemblePdfFromPages sampleEnv [] [samplePage] CompressionPreset.none true =
      Except.ok [] from rfl] at hmsg
  exact absurd hmsg (by simp)

/-- **C1** (amended) — `assemblePdfFromPages` fails with the `AssemblyError`
(`No pages available to assemble.`) exactly when the input page list is
empty.  A page whose `documentId` does not resolve is silently skipped
(contributing no output page) rather than raising an error; in particular for
every non-empty page list — whether or not its referenced documents resolve —
no `AssemblyError` is raised. -/
theorem claim_C1_assembly_error_amended (env : AssembleEnv) (docs : Documents)
    (pageList : List PageInstance) (preset : CompressionPreset) (bake : Bool) :
    (pageList = [] →
      assemblePdfFromPages env docs pageList preset bake =
        Except.error (AsmError.assemblyError "No pages available to assemble.")) ∧
    (pageList ≠ [] →
      ∀ msg, assemblePdfFromPages env docs pageList preset bake ≠
        Except.error (AsmError.assemblyError msg)) ∧
    (∀ p, lookupDoc docs p.documentId = Option.none →
      rasterPage env docs (COMPRESSION_PRESETS preset) bake p = Except.ok [] ∧
      processStructuralPage env docs bake p = Except.ok []) := by
  refine ⟨?_, ?_, ?_⟩
  · intro he
    rw [he, assemblePdfFromPages]
    rfl
  · intro hne msg
    rw [assemblePdfFromPages]
    rw [if_neg (by simpa [List.isEmpty_iff] using hne)]
    by_cases hrr : requiresRaster docs pageList preset
    · rw [if_pos hrr]
      cases hpp : processPages (rasterPage env docs (COMPRESSION_PRESETS preset) bake)
          pageList <;> simp [Except.mapError]
    · rw [if_neg hrr]
      cases hpp : processPages (processStructuralPage env docs bake) pageList <;>
        simp [Except.mapError]
  · intro p hp
    constructor
    · simp only [rasterPage, hp]
    · simp only [processStructuralPage, hp]

/-- Witness for C1 (amended): the empty-list clause at a concrete empty call,
and the non-empty clause at a concrete one-page call. -/
theorem claim_C1_assembly_error_amended_witness :
    assemblePdfFromPages sampleEnv sampleDocs [] CompressionPreset.none true =
      Except.error (AsmError.assemblyError "No pages available to assemble.") ∧
    assemblePdfFromPages sampleEnv sampleDocs [samplePage] CompressionPreset.none true ≠
      Except.error (AsmError.assemblyError "No pages available to assemble.") :=
  ⟨(claim_C1_assembly_error_amended sampleEnv sampleDocs [] CompressionPreset.none true).1 rfl,
   (claim_C1_assembly_error_amended sampleEnv sampleDocs [samplePage]
      CompressionPreset.none true).2.1 (by simp) "No pages available to assemble."⟩

/-! ### C4 — structural-copy errors fall back to per-page rasterization -/

/-- **C4** — On the structural-copy path (preset `none`, unencrypted source,
and — when rotation baking is on — a readable, zero intrinsic and UI
rotation), any error thrown during the per-page structural-copy attempt
(document load, page copy, rotation set, serialization, or renderability
validation — all summarized by the `structuralAttempt` oracle) makes that
single page's result exactly the rasterize-fallback result, so the structural
error itself is never propagated to the caller of assemble: when the fallback
succeeds the page contributes its rasterized output page. -/
theorem claim_C4_structural_error_fallback (env : AssembleEnv) (docs : Documents)
    (bake : Bool) (p : PageInstance) (d : DocumentEntry) (msg : String)
    (hd : lookupDoc docs p.documentId = some d)
    (henc : d.encrypted = false)
    (hbake : bake = false ∨ ∃ intr, env.intrinsicRotation p.documentId p.pageIndex = some intr ∧
      intr % 360 = 0 ∧ p.rotation % 360 = 0)
    (herr : env.structuralAttempt p.documentId p.pageIndex
      (structuralRotationSet env bake p) = Except.error msg) :
    processStructuralPage env docs bake p = rasterizePageInto env docs bake p ∧
    (∀ out, rasterizePageInto env docs bake p = Except.ok out →
      processStructuralPage env docs bake p = Except.ok out) := by
  have hmain : processStructuralPage env docs bake p = rasterizePageInto env docs bake p := by
    simp only [processStructuralPage, hd]
    rw [if_neg (by rw [henc]; exact Bool.false_ne_true)]
    have hforce : (if bake then
        match env.intrinsicRotation p.documentId p.pageIndex with
        | Option.none => true
        | some intrinsic => decide (intrinsic % 360 ≠ 0 ∨ p.rotation % 360 ≠ 0)
      else false) = false := by
      rcases hbake with hb | ⟨intr, hintr, hz1, hz2⟩
      · rw [hb]; rfl
      · cases bake with
        | false => rfl
        | true =>
          rw [if_pos rfl, hintr]
          simp [hz1, hz2]
    rw [hforce]
    simp only [Bool.false_eq_true, if_false]
    simp only [herr, Bind.bind, Except.bind]
  exact ⟨hmain, fun out hout => hmain.trans hout⟩

/-- Witness for C4: the benign environment with a throwing structural attempt
on the sample one-page workspace. -/
theorem claim_C4_structural_error_fallback_witness :
    processStructuralPage sampleEnvStructFail sampleDocs true samplePage =
      rasterizePageInto sampleEnvStructFail sampleDocs true samplePage ∧
    (∀ out, rasterizePageInto sampleEnvStructFail sampleDocs true samplePage = Except.ok out →
      processStructuralPage sampleEnvStructFail sampleDocs true samplePage = Except.ok out) :=
  claim_C4_structural_error_fallback sampleEnvStructFail sampleDocs true samplePage
    sampleDoc "copy failed" rfl rfl (Or.inr ⟨0, rfl, rfl, rfl⟩) rfl

/-! ### C10 — frame condition of rotate -/

/-- **C10** — For a page of an unencrypted document, `handleRotate` changes
only that page's rotation field (to `(previous + ±90 + 360) % 360`, computed
from the found target page): the documents map, the document order, the
number and order of pages, every field of every other page, and all other
fields of the rotated page (its id, documentId, pageIndex, previewUrl and
text state, visible in the `{p with rotation := _}` update) are unchanged. -/
theorem claim_C10_rotate_frame (refreshedPreview : Option String) (pageId : String)
    (dir : RotationDirection) (s : AppState) (target : PageInstance) (d : DocumentEntry)
    (hfind : s.ws.pages.find? (fun page => page.id = pageId) = some target)
    (hd : lookupDoc s.ws.documents target.documentId = some d)
    (henc : d.encrypted = false) :
    (handleRotate refreshedPreview pageId dir s).ws.documents = s.ws.documents ∧
    (handleRotate refreshedPreview pageId dir s).ws.documentOrder = s.ws.documentOrder ∧
    (handleRotate refreshedPreview pageId dir s).ws.pages.length = s.ws.pages.length ∧
    (∀ (k : Nat) (p : PageInstance), s.ws.pages[k]? = some p →
      (handleRotate refreshedPreview pageId dir s).ws.pages[k]? =
        some (if p.id = pageId
          then { p with rotation := (target.rotation + rotationDelta dir + 360) % 360 }
          else p)) := by
  have hrot : handleRotate refreshedPreview pageId dir s =
      { ws := { documents := s.ws.documents
                documentOrder := s.ws.documentOrder
                pages := s.ws.pages.map (fun p =>
                  if p.id = pageId
                  then { p with rotation := (target.rotation + rotationDelta dir + 360) % 360 }
                  else p) }
        undoStack := s.ws :: s.undoStack } := by
    simp only [handleRotate, hfind, hd]
    rw [if_neg (by rw [henc]; exact Bool.false_ne_true)]
    rfl
  rw [hrot]
  refine ⟨rfl, rfl, List.length_map _ _, ?_⟩
  intro k p hk
  simp only [List.getElem?_map, hk, Option.map_some']

/-- Witness for C10: rotating the single page of the sample workspace
clockwise. -/
theorem claim_C10_rotate_frame_witness :
    (handleRotate Option.none "pg1" RotationDirection.clockwise sampleState).ws.documents =
      sampleState.ws.documents ∧
    (handleRotate Option.none "pg1" RotationDirection.clockwise
        sampleState).ws.documentOrder = sampleState.ws.documentOrder ∧
    (handleRotate Option.none "pg1" RotationDirection.clockwise
        sampleState).ws.pages.length = sampleState.ws.pages.length ∧
    (∀ (k : Nat) (p : PageInstance), sampleState.ws.pages[k]? = some p →
      (handleRotate Option.none "pg1" RotationDirection.clockwise
          sampleState).ws.pages[k]? =
        some (if p.id = "pg1"
          then { p with rotation :=
            (samplePage.rotation + rotationDelta RotationDirection.clockwise + 360) % 360 }
          else p)) :=
  claim_C10_rotate_frame Option.none "pg1" RotationDirection.clockwise sampleState
    samplePage sampleDoc rfl rfl rfl

/-! ### C8 — snapshot/undo discipline -/

/-- An operation that pushed the prior workspace onto the stack is undone
exactly: `handleUndo` restores the full previous state. -/
theorem undo_of_pushed {s s' : AppState} (h : s'.undoStack = s.ws :: s.undoStack) :
    handleUndo s' = s := by
  cases s' with
  | mk ws' stack' =>
    cases s with
    | mk ws stack =>
      simp only at h
      rw [h]
      rfl

/-- **C8** — Snapshot/undo discipline: every workspace-mutating operation
(reorder, rotate, delete, load-append, merge, split, OCR-apply, reset) pushes
a snapshot of the prior workspace before mutating — except the very first
load into an empty workspace, which pushes nothing — so a single mutation
followed by `undo` restores exactly the prior page order, per-page rotation
values and document set (the whole prior state); and `undo` on an empty
snapshot stack is a no-op (the model is total, so nothing is thrown). -/
theorem claim_C8_snapshot_undo (s : AppState) (srcIdx dstIdx : Nat)
    (refreshedPreview : Option String) (pageId delId : String) (dir : RotationDirection)
    (env : AssembleEnv) (mergedId : String) (mergedPageIds mergedPreviews : Nat → String)
    (chunkDocIds : Nat → String) (chunkPageIds chunkPreviews : Nat → Nat → String)
    (rangeText : String) (outcomes : List LoadedDocOutcome)
    (ocrResult : String → Nat → Option OcrRec)
    (target : PageInstance) (d : DocumentEntry)
    (hfind : s.ws.pages.find? (fun page => page.id = pageId) = some target)
    (hdoc : lookupDoc s.ws.documents target.documentId = some d)
    (hcontent : s.ws.pages ≠ []) :
    ((handleReorder srcIdx dstIdx s).undoStack = s.ws :: s.undoStack ∧
      handleUndo (handleReorder srcIdx dstIdx s) = s) ∧
    ((handleRotate refreshedPreview pageId dir s).undoStack = s.ws :: s.undoStack ∧
      handleUndo (handleRotate refreshedPreview pageId dir s) = s) ∧
    ((handleDelete delId s).undoStack = s.ws :: s.undoStack ∧
      handleUndo (handleDelete delId s) = s) ∧
    ((handlePdfLoad true outcomes s).undoStack = s.ws :: s.undoStack ∧
      handleUndo (handlePdfLoad true outcomes s) = s) ∧
    ((handleMerge env mergedId mergedPageIds mergedPreviews s).undoStack =
        s.ws :: s.undoStack ∧
      handleUndo (handleMerge env mergedId mergedPageIds mergedPreviews s) = s) ∧
    ((confirmSplit env chunkDocIds chunkPageIds chunkPreviews rangeText s).undoStack =
        s.ws :: s.undoStack ∧
      handleUndo (confirmSplit env chunkDocIds chunkPageIds chunkPreviews rangeText s) = s) ∧
    ((handleRunOcr ocrResult s).undoStack = s.ws :: s.undoStack ∧
      handleUndo (handleRunOcr ocrResult s) = s) ∧
    ((resetWorkspace s).undoStack = s.ws :: s.undoStack ∧
      handleUndo (resetWorkspace s) = s) ∧
    (s.undoStack = [] → handleUndo s = s) ∧
    (∀ s0 : AppState, s0.ws.pages = [] → s0.ws.documentOrder = [] →
      (handlePdfLoad true outcomes s0).undoStack = s0.undoStack) := by
  have hne : s.ws.pages.isEmpty = false := by
    rw [List.isEmpty_eq_false_iff_exists_mem]
    cases hp : s.ws.pages with
    | nil => exact absurd hp hcontent
    | cons a l => exact ⟨a, hp ▸ List.mem_cons_self a l⟩
  have hreorder : (handleReorder srcIdx dstIdx s).undoStack = s.ws :: s.undoStack := rfl
  have hrotate : (handleRotate refreshedPreview pageId dir s).undoStack =
      s.ws :: s.undoStack := by
    simp only [handleRotate, hfind, hdoc]
    by_cases henc : d.encrypted
    · rw [if_pos henc]
      cases refreshedPreview <;> rfl
    · rw [if_neg henc]
      rfl
  have hdelete : (handleDelete delId s).undoStack = s.ws :: s.undoStack := rfl
  have hload : (handlePdfLoad true outcomes s).undoStack = s.ws :: s.undoStack := by
    rw [handlePdfLoad]
    simp only [Bool.not_true, Bool.false_eq_true, if_false]
    have hc : (!s.ws.pages.isEmpty || !s.ws.documentOrder.isEmpty) = true := by
      rw [hne]
      rfl
    rw [hc]
    rfl
  have hmerge : (handleMerge env mergedId mergedPageIds mergedPreviews s).undoStack =
      s.ws :: s.undoStack := by
    rw [handleMerge, if_neg (by rw [hne]; exact Bool.false_ne_true)]
    split <;> rfl
  have hsplit : (confirmSplit env chunkDocIds chunkPageIds chunkPreviews
      rangeText s).undoStack = s.ws :: s.undoStack := by
    rw [confirmSplit]
    split
    · rfl
    split
    · rfl
    split <;> rfl
  have hocr : (handleRunOcr ocrResult s).undoStack = s.ws :: s.undoStack := by
    rw [handleRunOcr, if_neg (by rw [hne]; exact Bool.false_ne_true)]
    rfl
  have hreset : (resetWorkspace s).undoStack = s.ws :: s.undoStack := rfl
  refine ⟨⟨hreorder, undo_of_pushed hreorder⟩, ⟨hrotate, undo_of_pushed hrotate⟩,
    ⟨hdelete, undo_of_pushed hdelete⟩, ⟨hload, undo_of_pushed hload⟩,
    ⟨hmerge, undo_of_pushed hmerge⟩, ⟨hsplit, undo_of_pushed hsplit⟩,
    ⟨hocr, undo_of_pushed hocr⟩, ⟨hreset, undo_of_pushed hreset⟩, ?_, ?_⟩
  · intro hstack
    rw [handleUndo, hstack]
  · intro s0 hp0 ho0
    rw [handlePdfLoad]
    simp only [Bool.not_true, Bool.false_eq_true, if_false]
    have hc : (!s0.ws.pages.isEmpty || !s0.ws.documentOrder.isEmpty) = false := by
      rw [hp0, ho0]
      rfl
    rw [hc]
    rfl

/-- Witness for C8: deleting, reordering and undoing on the sample one-page
workspace round-trips, and undo on the empty stack of `sampleState` itself is
a no-op. -/
theorem claim_C8_snapshot_undo_witness :
    handleUndo (handleDelete "pg1" sampleState) = sampleState ∧
    handleUndo (handleReorder 0 0 sampleState) = sampleState ∧
    handleUndo sampleState = sampleState := by
  have h := claim_C8_snapshot_undo sampleState 0 0 Option.none "pg1" "pg1"
    RotationDirection.clockwise sampleEnv "m" (fun _ => "mp") (fun _ => "mu")
    (fun _ => "c") (fun _ _ => "cp") (fun _ _ => "cu") "*" [] (fun _ _ => Option.none)
    samplePage sampleDoc rfl rfl (by simp [sampleState])
  exact ⟨h.2.2.1.2, h.1.2, h.2.2.2.2.2.2.2.2.1 rfl⟩

/-! ### C9 — workspace referential integrity: helper lemmas -/

theorem contains_iff_mem {l : List String} {a : String} : l.contains a = true ↔ a ∈ l :=
  List.elem_iff

theorem lookupDoc_isSome_iff {docs : Documents} {k : String} :
    (lookupDoc docs k).isSome ↔ ∃ e ∈ docs, e.1 = k := by
  rw [lookupDoc]
  rw [show (docs.find? (fun e => e.1 = k)).map (fun e => e.2) =
    (fun e => e.2) <$> docs.find? (fun e => e.1 = k) from rfl]
  rw [Option.isSome_map, List.find?_isSome]
  simp

theorem rotOk_step (r : Int) (dir : RotationDirection) (h : RotOk r) :
    RotOk ((r + rotationDelta dir + 360) % 360) := by
  rcases h with rfl | rfl | rfl | rfl <;> cases dir <;> simp [rotationDelta, RotOk]

theorem perm_cons_eraseIdx {α : Type _} :
    ∀ (l : List α) (n : Nat) (a : α), l[n]? = some a → l.Perm (a :: l.eraseIdx n) := by
  intro l
  induction l with
  | nil => intro n a h; simp at h
  | cons x xs ih =>
    intro n a h
    cases n with
    | zero =>
      simp at h
      rw [h]
      rfl
    | succ m =>
      simp only [List.getElem?_cons_succ] at h
      have hperm := ih m a h
      have h1 : (x :: xs).Perm (x :: (a :: xs.eraseIdx m)) := hperm.cons x
      have h2 : (x :: (a :: xs.eraseIdx m)).Perm (a :: (x :: xs.eraseIdx m)) :=
        List.Perm.swap a x _
      exact h1.trans h2

theorem movePage_perm (l : List PageInstance) (src dst : Nat) :
    (movePage l src dst).Perm l := by
  rw [movePage]
  cases h : l[src]? with
  | none => exact List.Perm.refl l
  | some moved =>
    exact ((List.perm_insertIdx moved (l.eraseIdx src)
      (min_le_right dst (l.eraseIdx src).length)).trans
      (perm_cons_eraseIdx l src moved h).symm)

theorem dedupFirstAux_subset :
    ∀ (l seen : List String) (x : String), x ∈ dedupFirstAux seen l → x ∈ l := by
  intro l
  induction l with
  | nil => intro seen x h; simp [dedupFirstAux] at h
  | cons a rest ih =>
    intro seen x h
    rw [dedupFirstAux] at h
    by_cases ha : a ∈ seen
    · rw [if_pos ha] at h
      exact List.mem_cons_of_mem a (ih seen x h)
    · rw [if_neg ha] at h
      rcases List.mem_cons.mp h with rfl | h
      · exact List.mem_cons_self x rest
      · exact List.mem_cons_of_mem a (ih (a :: seen) x h)

theorem dedupFirst_subset {l : List String} {x : String} (h : x ∈ dedupFirst l) : x ∈ l :=
  dedupFirstAux_subset l [] x h

/-- Mapping every page through a function that preserves `documentId` and keeps
rotations legal preserves the workspace invariant. -/
theorem inv_map_pages {ws : Workspace} (f : PageInstance → PageInstance)
    (hdoc : ∀ p, (f p).documentId = p.documentId)
    (hrot : ∀ p ∈ ws.pages, RotOk p.rotation → RotOk (f p).rotation)
    (hinv : WsInvariant ws) : WsInvariant { ws with pages := ws.pages.map f } := by
  constructor
  · intro p hp
    obtain ⟨q, hq, rfl⟩ := List.mem_map.mp hp
    rw [hdoc q]
    exact hinv.resolves q hq
  · intro e he
    obtain ⟨p, hp, hpe⟩ := hinv.referenced e he
    exact ⟨f p, List.mem_map_of_mem f hp, by rw [hdoc p]; exact hpe⟩
  · intro docId hid
    obtain ⟨p, hp, hpe⟩ := hinv.orderLive docId hid
    exact ⟨f p, List.mem_map_of_mem f hp, by rw [hdoc p]; exact hpe⟩
  · intro p hp
    obtain ⟨q, hq, rfl⟩ := List.mem_map.mp hp
    exact hrot q hq (hinv.rotOk q hq)

theorem mergeDocs_mem {prev added : Documents} {e : String × DocumentEntry}
    (h : e ∈ mergeDocs prev added) :
    (∃ e2 ∈ prev, e.1 = e2.1) ∨ e ∈ added := by
  rw [mergeDocs] at h
  rcases List.mem_append.mp h with h | h
  · obtain ⟨e2, he2, hfe⟩ := List.mem_map.mp h
    refine Or.inl ⟨e2, he2, ?_⟩
    cases hl : lookupDoc added e2.1 <;> rw [hl] at hfe <;> rw [← hfe]
  · exact Or.inr (List.mem_of_mem_filter h)

theorem lookupDoc_mergeDocs_isSome {prev added : Documents} {k : String}
    (h : (lookupDoc prev k).isSome ∨ (lookupDoc added k).isSome) :
    (lookupDoc (mergeDocs prev added) k).isSome := by
  rw [lookupDoc_isSome_iff, mergeDocs]
  have hofprev : (lookupDoc prev k).isSome →
      ∃ e ∈ (prev.map (fun e =>
        match lookupDoc added e.1 with
        | some d => (e.1, d)
        | Option.none => e)) ++ added.filter (fun e => !(lookupDoc prev e.1).isSome),
        e.1 = k := by
    intro hp
    obtain ⟨e, he, hek⟩ := lookupDoc_isSome_iff.mp hp
    refine ⟨(match lookupDoc added e.1 with
      | some d => (e.1, d)
      | Option.none => e), List.mem_append_left _ (List.mem_map_of_mem _ he), ?_⟩
    cases lookupDoc added e.1 <;> simp [hek]
  rcases h with hp | ha
  · exact hofprev hp
  · by_cases hp : (lookupDoc prev k).isSome
    · exact hofprev hp
    · obtain ⟨e, he, hek⟩ := lookupDoc_isSome_iff.mp ha
      refine ⟨e, List.mem_append_right _ ?_, hek⟩
      rw [List.mem_filter]
      refine ⟨he, ?_⟩
      rw [hek, Bool.not_eq_true']
      exact Bool.of_not_eq_true hp

theorem splitPDFCounts_pos {totalPages : Nat} {ranges : List PageRange} {counts : List Nat}
    (h : splitPDFCounts totalPages ranges = Except.ok counts) : ∀ c ∈ counts, 1 ≤ c := by
  rw [splitPDFCounts] at h
  by_cases he : ranges.isEmpty
  · rw [if_pos he] at h
    exact absurd h (by simp)
  · rw [if_neg he] at h
    intro c hc
    obtain ⟨r, _, hok⟩ := throwMap_ok_mem h c hc
    by_cases hb : r.start < 1 ∨ r.stop < r.start ∨ r.stop > (totalPages : Int)
    · rw [if_pos hb] at hok
      exact absurd hok (by simp)
    · rw [if_neg hb] at hok
      push_neg at hb
      have hcr := Except.ok.inj hok
      rw [← hcr]
      omega

theorem pagesOfLoaded_fields {o : LoadedDocOutcome} {p : PageInstance}
    (h : p ∈ pagesOfLoaded o) : p.documentId = o.doc.id ∧ p.rotation = 0 := by
  rw [pagesOfLoaded] at h
  obtain ⟨i, _, rfl⟩ := List.mem_map.mp h
  exact ⟨rfl, rfl⟩

theorem pagesOfLoaded_nonempty {o : LoadedDocOutcome} (h : 1 ≤ o.doc.pageCount) :
    ∃ p ∈ pagesOfLoaded o, p.documentId = o.doc.id := by
  rw [pagesOfLoaded]
  exact ⟨_, List.mem_map_of_mem _ (List.mem_range.mpr (by omega : 0 < o.doc.pageCount)), rfl⟩

theorem derivedPageFrom_documentId (src : Option PageInstance) (docId pageId : String)
    (pageIndex : Nat) (previewUrl : String) :
    (derivedPageFrom src docId pageId pageIndex previewUrl).documentId = docId := rfl

theorem derivedPageFrom_rotOk {src : Option PageInstance} (docId pageId : String)
    (pageIndex : Nat) (previewUrl : String)
    (h : ∀ p : PageInstance, src = some p → RotOk p.rotation) :
    RotOk (derivedPageFrom src docId pageId pageIndex previewUrl).rotation := by
  cases hs : src with
  | none =>
    show RotOk ((Option.map (fun q : PageInstance => q.rotation) Option.none).getD 0)
    exact Or.inl rfl
  | some p =>
    show RotOk ((Option.map (fun q : PageInstance => q.rotation) (some p)).getD 0)
    rw [Option.map_some', Option.getD_some]
    exact h p hs

/-! ### C9 — per-operation invariant preservation -/

theorem inv_handleDelete (pageId : String) (s : AppState) (hinv : WsInvariant s.ws) :
    WsInvariant (handleDelete pageId s).ws := by
  have hpages : (handleDelete pageId s).ws.pages =
      s.ws.pages.filter (fun page => page.id ≠ pageId) := rfl
  have hdocs : (handleDelete pageId s).ws.documents =
      s.ws.documents.filter (fun e =>
        ((s.ws.pages.filter (fun page => page.id ≠ pageId)).map
          (fun page => page.documentId)).contains e.1) := rfl
  have horder : (handleDelete pageId s).ws.documentOrder =
      s.ws.documentOrder.filter (fun docId =>
        ((s.ws.pages.filter (fun page => page.id ≠ pageId)).map
          (fun page => page.documentId)).contains docId) := rfl
  constructor
  · intro p hp
    rw [hpages] at hp
    rw [hdocs, lookupDoc_isSome_iff]
    obtain ⟨e, he, hek⟩ :=
      lookupDoc_isSome_iff.mp (hinv.resolves p (List.mem_of_mem_filter hp))
    refine ⟨e, List.mem_filter.mpr ⟨he, ?_⟩, hek⟩
    rw [hek, contains_iff_mem]
    exact List.mem_map_of_mem _ hp
  · intro e he
    rw [hdocs] at he
    rw [hpages]
    have hc := (List.mem_filter.mp he).2
    rw [contains_iff_mem] at hc
    obtain ⟨p, hp, hpe⟩ := List.mem_map.mp hc
    exact ⟨p, hp, hpe⟩
  · intro docId hid
    rw [horder] at hid
    rw [hpages]
    have hc := (List.mem_filter.mp hid).2
    rw [contains_iff_mem] at hc
    obtain ⟨p, hp, hpe⟩ := List.mem_map.mp hc
    exact ⟨p, hp, hpe⟩
  · intro p hp
    rw [hpages] at hp
    exact hinv.rotOk p (List.mem_of_mem_filter hp)

theorem inv_handleRotate (refreshedPreview : Option String) (pageId : String)
    (dir : RotationDirection) (s : AppState) (hinv : WsInvariant s.ws) :
    WsInvariant (handleRotate refreshedPreview pageId dir s).ws := by
  cases hfind : s.ws.pages.find? (fun page => page.id = pageId) with
  | none =>
    have hst : handleRotate refreshedPreview pageId dir s = s := by
      rw [handleRotate, hfind]
    rw [hst]
    exact hinv
  | some target =>
    cases hdoc : lookupDoc s.ws.documents target.documentId with
    | none =>
      have hst : handleRotate refreshedPreview pageId dir s = s := by
        simp only [handleRotate, hfind, hdoc]
      rw [hst]
      exact hinv
    | some d =>
      have htmem : target ∈ s.ws.pages := List.mem_of_find?_eq_some hfind
      set rotF : PageInstance → PageInstance := fun p =>
        if p.id = pageId
        then { p with rotation := (target.rotation + rotationDelta dir + 360) % 360 }
        else p with hrotF
      set prevF : String → PageInstance → PageInstance := fun url p =>
        if p.id = pageId then { p with previewUrl := url } else p with hprevF
      have hdocF : ∀ p : PageInstance, (rotF p).documentId = p.documentId := by
        intro p
        simp only [hrotF]
        by_cases hid : p.id = pageId
        · rw [if_pos hid]
        · rw [if_neg hid]
      have hdocG : ∀ (url : String) (p : PageInstance),
          (prevF url p).documentId = p.documentId := by
        intro url p
        simp only [hprevF]
        by_cases hid : p.id = pageId
        · rw [if_pos hid]
        · rw [if_neg hid]
      have hrot1 : WsInvariant { s.ws with pages := s.ws.pages.map rotF } := by
        refine inv_map_pages rotF hdocF ?_ hinv
        intro p _ hpOk
        simp only [hrotF]
        by_cases hid : p.id = pageId
        · rw [if_pos hid]
          exact rotOk_step target.rotation dir (hinv.rotOk target htmem)
        · rw [if_neg hid]
          exact hpOk
      have hrot2 : ∀ url, WsInvariant { s.ws with
          pages := (s.ws.pages.map rotF).map (prevF url) } := by
        intro url
        refine inv_map_pages (prevF url) (hdocG url) ?_ hrot1
        intro p _ hpOk
        simp only [hprevF]
        by_cases hid : p.id = pageId
        · rw [if_pos hid]
          exact hpOk
        · rw [if_neg hid]
          exact hpOk
      by_cases henc : d.encrypted
      · cases refreshedPreview with
        | none =>
          have hst : handleRotate Option.none pageId dir s =
              { ws := { s.ws with pages := s.ws.pages.map rotF }
                undoStack := s.ws :: s.undoStack } := by
            simp only [handleRotate, hfind, hdoc]
            rw [if_pos henc]
            rfl
          rw [hst]
          exact hrot1
        | some url =>
          have hst : handleRotate (some url) pageId dir s =
              { ws := { s.ws with pages := (s.ws.pages.map rotF).map (prevF url) }
                undoStack := s.ws :: s.undoStack } := by
            simp only [handleRotate, hfind, hdoc]
            rw [if_pos henc]
            rfl
          rw [hst]
          exact hrot2 url
      · have hst : handleRotate refreshedPreview pageId dir s =
            { ws := { s.ws with pages := s.ws.pages.map rotF }
              undoStack := s.ws :: s.undoStack } := by
          simp only [handleRotate, hfind, hdoc]
          rw [if_neg henc]
          rfl
        rw [hst]
        exact hrot1

theorem inv_handleReorder (srcIdx dstIdx : Nat) (s : AppState) (hinv : WsInvariant s.ws) :
    WsInvariant (handleReorder srcIdx dstIdx s).ws := by
  have hperm := movePage_perm s.ws.pages srcIdx dstIdx
  have hpages : (handleReorder srcIdx dstIdx s).ws.pages =
      movePage s.ws.pages srcIdx dstIdx := rfl
  have hdocs : (handleReorder srcIdx dstIdx s).ws.documents = s.ws.documents := rfl
  have horder : (handleReorder srcIdx dstIdx s).ws.documentOrder =
      dedupFirst ((movePage s.ws.pages srcIdx dstIdx).map (fun page => page.documentId)) :=
    rfl
  constructor
  · intro p hp
    rw [hpages] at hp
    rw [hdocs]
    exact hinv.resolves p (hperm.mem_iff.mp hp)
  · intro e he
    rw [hdocs] at he
    rw [hpages]
    obtain ⟨p, hp, hpe⟩ := hinv.referenced e he
    exact ⟨p, hperm.mem_iff.mpr hp, hpe⟩
  · intro docId hid
    rw [horder] at hid
    rw [hpages]
    have := dedupFirst_subset hid
    obtain ⟨p, hp, hpe⟩ := List.mem_map.mp this
    exact ⟨p, hp, hpe⟩
  · intro p hp
    rw [hpages] at hp
    exact hinv.rotOk p (hperm.mem_iff.mp hp)

theorem inv_resetWorkspace (s : AppState) : WsInvariant (resetWorkspace s).ws := by
  constructor <;> intro x hx <;> exact absurd hx (by simp [resetWorkspace])

theorem inv_handleUndo (s : AppState) (hstack : ∀ w ∈ s.undoStack, WsInvariant w)
    (hinv : WsInvariant s.ws) : WsInvariant (handleUndo s).ws := by
  rw [handleUndo]
  cases hs : s.undoStack with
  | nil => exact hinv
  | cons w rest => exact hstack w (hs ▸ List.mem_cons_self w rest)

theorem inv_handleRunOcr (ocrResult : String → Nat → Option OcrRec) (s : AppState)
    (hinv : WsInvariant s.ws) : WsInvariant (handleRunOcr ocrResult s).ws := by
  rw [handleRunOcr]
  by_cases he : s.ws.pages.isEmpty
  · rw [if_pos he]
    exact hinv
  · rw [if_neg he]
    refine inv_map_pages _ ?_ ?_ hinv
    · intro p
      cases ocrResult p.documentId p.pageIndex with
      | none => rfl
      | some r =>
        by_cases ht : (jsTrim r.recognized).isEmpty <;> simp [ht]
    · intro p _ hpOk
      cases ocrResult p.documentId p.pageIndex with
      | none => exact hpOk
      | some r =>
        by_cases ht : (jsTrim r.recognized).isEmpty <;> simp [ht] <;> exact hpOk

/-- The workspace built by appending accepted loads preserves the invariant
(every accepted document contributes at least one page). -/
theorem inv_load_ws (ws : Workspace) (outcomes : List LoadedDocOutcome)
    (hinv : WsInvariant ws) (hcount : ∀ o ∈ outcomes, 1 ≤ o.doc.pageCount) :
    WsInvariant
      { documents := mergeDocs ws.documents (outcomes.map (fun o => (o.doc.id, o.doc)))
        documentOrder := ws.documentOrder ++ outcomes.map (fun o => o.doc.id)
        pages := ws.pages ++ outcomes.flatMap pagesOfLoaded } := by
  constructor
  · intro p hp
    rcases List.mem_append.mp hp with hp | hp
    · exact lookupDoc_mergeDocs_isSome (Or.inl (hinv.resolves p hp))
    · obtain ⟨o, ho, hpo⟩ := List.mem_flatMap.mp hp
      refine lookupDoc_mergeDocs_isSome (Or.inr ?_)
      rw [lookupDoc_isSome_iff]
      exact ⟨(o.doc.id, o.doc), List.mem_map_of_mem _ ho,
        ((pagesOfLoaded_fields hpo).1).symm⟩
  · intro e he
    rcases mergeDocs_mem he with ⟨e2, he2, hkey⟩ | he
    · obtain ⟨p, hp, hpe⟩ := hinv.referenced e2 he2
      exact ⟨p, List.mem_append.mpr (Or.inl hp), by rw [hpe, hkey]⟩
    · obtain ⟨o, ho, rfl⟩ := List.mem_map.mp he
      obtain ⟨p, hpo, hpk⟩ := pagesOfLoaded_nonempty (hcount o ho)
      exact ⟨p, List.mem_append.mpr (Or.inr (List.mem_flatMap.mpr ⟨o, ho, hpo⟩)), hpk⟩
  · intro docId hid
    rcases List.mem_append.mp hid with hid | hid
    · obtain ⟨p, hp, hpe⟩ := hinv.orderLive docId hid
      exact ⟨p, List.mem_append.mpr (Or.inl hp), hpe⟩
    · obtain ⟨o, ho, rfl⟩ := List.mem_map.mp hid
      obtain ⟨p, hpo, hpk⟩ := pagesOfLoaded_nonempty (hcount o ho)
      exact ⟨p, List.mem_append.mpr (Or.inr (List.mem_flatMap.mpr ⟨o, ho, hpo⟩)), hpk⟩
  · intro p hp
    rcases List.mem_append.mp hp with hp | hp
    · exact hinv.rotOk p hp
    · obtain ⟨o, _, hpo⟩ := List.mem_flatMap.mp hp
      rw [(pagesOfLoaded_fields hpo).2]
      exact Or.inl rfl

theorem inv_handlePdfLoad (anyInput : Bool) (outcomes : List LoadedDocOutcome)
    (s : AppState) (hinv : WsInvariant s.ws)
    (hcount : ∀ o ∈ outcomes, 1 ≤ o.doc.pageCount) :
    WsInvariant (handlePdfLoad anyInput outcomes s).ws := by
  cases anyInput with
  | false => exact hinv
  | true =>
    simp only [handlePdfLoad, Bool.not_true, Bool.false_eq_true, if_false]
    by_cases hc : (!s.ws.pages.isEmpty || !s.ws.documentOrder.isEmpty) = true
    · rw [if_pos hc]
      exact inv_load_ws s.ws outcomes hinv hcount
    · rw [if_neg hc]
      exact inv_load_ws s.ws outcomes hinv hcount

theorem inv_mergedWorkspace (newDocId : String) (pageIds previews : Nat → String)
    (basePages : List PageInstance) (pageCount : Nat) (hpos : 1 ≤ pageCount)
    (hrot : ∀ p ∈ basePages, RotOk p.rotation) :
    WsInvariant (mergedWorkspace newDocId pageIds previews basePages pageCount) := by
  constructor
  · intro p hp
    obtain ⟨index, _, rfl⟩ := List.mem_map.mp hp
    rw [lookupDoc_isSome_iff]
    refine ⟨_, List.mem_singleton.mpr rfl, ?_⟩
    rw [derivedPageFrom_documentId]
  · intro e he
    rw [List.mem_singleton.mp he]
    refine ⟨_, List.mem_map_of_mem _ (List.mem_range.mpr (by omega : 0 < pageCount)), ?_⟩
    rw [derivedPageFrom_documentId]
  · intro docId hid
    rw [List.mem_singleton.mp hid]
    refine ⟨_, List.mem_map_of_mem _ (List.mem_range.mpr (by omega : 0 < pageCount)), ?_⟩
    rw [derivedPageFrom_documentId]
  · intro p hp
    obtain ⟨index, _, rfl⟩ := List.mem_map.mp hp
    refine derivedPageFrom_rotOk _ _ _ _ ?_
    intro q hq
    exact hrot q (List.getElem?_mem hq)

theorem inv_handleMerge (env : AssembleEnv) (newDocId : String)
    (pageIds previews : Nat → String) (s : AppState) (hinv : WsInvariant s.ws) :
    WsInvariant (handleMerge env newDocId pageIds previews s).ws := by
  rw [handleMerge]
  by_cases he : s.ws.pages.isEmpty
  · rw [if_pos he]
    exact hinv
  · rw [if_neg he]
    cases hasm : assemblePdfFromPages env s.ws.documents s.ws.pages
        CompressionPreset.none false with
    | error e => exact hinv
    | ok out =>
      show WsInvariant (mergedWorkspace newDocId pageIds previews s.ws.pages out.length)
      have hlen : out.length = s.ws.pages.length := assemble_ok_length hinv.resolves hasm
      refine inv_mergedWorkspace _ _ _ _ _ ?_ hinv.rotOk
      rw [hlen]
      have : s.ws.pages ≠ [] := by simpa [List.isEmpty_iff] using he
      cases hp : s.ws.pages with
      | nil => exact absurd hp this
      | cons a l => simp

theorem rangeSlice_subset {basePages : List PageInstance} {r : PageRange}
    {p : PageInstance} (h : p ∈ rangeSlice basePages r) : p ∈ basePages :=
  List.mem_of_mem_take (List.mem_of_mem_drop h)

theorem inv_splitWorkspace (chunkDocIds : Nat → String)
    (chunkPageIds chunkPreviews : Nat → Nat → String)
    (basePages : List PageInstance) (ranges : List PageRange) (counts : List Nat)
    (hpos : ∀ c ∈ counts, 1 ≤ c) (hrot : ∀ p ∈ basePages, RotOk p.rotation) :
    WsInvariant (splitWorkspace chunkDocIds chunkPageIds chunkPreviews basePages
      ranges counts) := by
  have hmemcount : ∀ ic ∈ counts.enum, 1 ≤ ic.2 := by
    intro ic hic
    refine hpos ic.2 ?_
    obtain ⟨i, c⟩ := ic
    exact List.getElem?_mem (List.mk_mem_enum_iff_getElem?.mp hic)
  constructor
  · intro p hp
    obtain ⟨ic, hic, hpic⟩ := List.mem_flatMap.mp hp
    obtain ⟨pageIndex, _, rfl⟩ := List.mem_map.mp hpic
    rw [lookupDoc_isSome_iff]
    refine ⟨(chunkDocIds ic.1, _), List.mem_map_of_mem _ hic, ?_⟩
    rw [derivedPageFrom_documentId]
  · intro e he
    obtain ⟨ic, hic, rfl⟩ := List.mem_map.mp he
    refine ⟨_, List.mem_flatMap.mpr ⟨ic, hic,
      List.mem_map_of_mem _ (List.mem_range.mpr (by
        have := hmemcount ic hic
        omega : 0 < ic.2))⟩, ?_⟩
    rw [derivedPageFrom_documentId]
  · intro docId hid
    obtain ⟨ic, hic, rfl⟩ := List.mem_map.mp hid
    refine ⟨_, List.mem_flatMap.mpr ⟨ic, hic,
      List.mem_map_of_mem _ (List.mem_range.mpr (by
        have := hmemcount ic hic
        omega : 0 < ic.2))⟩, ?_⟩
    rw [derivedPageFrom_documentId]
  · intro p hp
    obtain ⟨ic, hic, hpic⟩ := List.mem_flatMap.mp hp
    obtain ⟨pageIndex, _, rfl⟩ := List.mem_map.mp hpic
    refine derivedPageFrom_rotOk _ _ _ _ ?_
    intro q hq
    have hqmem := List.getElem?_mem hq
    cases hr : ranges[ic.1]? with
    | none =>
      rw [hr] at hqmem
      exact absurd hqmem (by simp)
    | some r =>
      rw [hr] at hqmem
      exact hrot q (rangeSlice_subset hqmem)

theorem inv_confirmSplit (env : AssembleEnv) (chunkDocIds : Nat → String)
    (chunkPageIds chunkPreviews : Nat → Nat → String) (rangeText : String)
    (s : AppState) (hinv : WsInvariant s.ws) :
    WsInvariant (confirmSplit env chunkDocIds chunkPageIds chunkPreviews rangeText s).ws := by
  rw [confirmSplit]
  cases hr : confirmSplitRanges rangeText s.ws.pages.length with
  | error e => exact hinv
  | ok ranges =>
    dsimp only
    cases hasm : assemblePdfFromPages env s.ws.documents s.ws.pages
        CompressionPreset.none false with
    | error e => exact hinv
    | ok baseOut =>
      dsimp only
      cases hspl : splitPDFCounts baseOut.length ranges with
      | error e => exact hinv
      | ok counts =>
        show WsInvariant (splitWorkspace chunkDocIds chunkPageIds chunkPreviews
          s.ws.pages ranges counts)
        exact inv_splitWorkspace _ _ _ _ _ _ (splitPDFCounts_pos hspl) hinv.rotOk

/-- The sample one-page workspace satisfies the referential-integrity
invariant. -/
theorem sampleState_inv : WsInvariant sampleState.ws := by
  refine ⟨by decide, by decide, by decide, ?_⟩
  intro p hp
  rw [List.mem_singleton.mp hp]
  exact Or.inl rfl

/-- C9: every workspace operation preserves the referential-integrity
invariant: after delete, rotate, reorder, undo (when every snapshot on the
stack satisfied the invariant), reset, load-append (when every accepted
document has at least one page), merge, split and OCR-apply, every remaining
page's documentId resolves to a live document, every remaining document and
every id in the document order is referenced by at least one page, and every
page's rotation is one of 0, 90, 180, 270. -/
theorem claim_C9_referential_integrity (env : AssembleEnv) (s : AppState)
    (refreshedPreview : Option String) (pageId delId : String)
    (dir : RotationDirection) (srcIdx dstIdx : Nat)
    (ocrResult : String → Nat → Option OcrRec)
    (anyInput : Bool) (outcomes : List LoadedDocOutcome)
    (newDocId : String) (pageIds previews : Nat → String)
    (chunkDocIds : Nat → String) (chunkPageIds chunkPreviews : Nat → Nat → String)
    (rangeText : String)
    (hinv : WsInvariant s.ws)
    (hstack : ∀ w ∈ s.undoStack, WsInvariant w)
    (hcount : ∀ o ∈ outcomes, 1 ≤ o.doc.pageCount) :
    WsInvariant (handleDelete delId s).ws ∧
    WsInvariant (handleRotate refreshedPreview pageId dir s).ws ∧
    WsInvariant (handleReorder srcIdx dstIdx s).ws ∧
    WsInvariant (handleUndo s).ws ∧
    WsInvariant (resetWorkspace s).ws ∧
    WsInvariant (handlePdfLoad anyInput outcomes s).ws ∧
    WsInvariant (handleMerge env newDocId pageIds previews s).ws ∧
    WsInvariant (confirmSplit env chunkDocIds chunkPageIds chunkPreviews rangeText s).ws ∧
    WsInvariant (handleRunOcr ocrResult s).ws :=
  ⟨inv_handleDelete delId s hinv,
   inv_handleRotate refreshedPreview pageId dir s hinv,
   inv_handleReorder srcIdx dstIdx s hinv,
   inv_handleUndo s hstack hinv,
   inv_resetWorkspace s,
   inv_handlePdfLoad anyInput outcomes s hinv hcount,
   inv_handleMerge env newDocId pageIds previews s hinv,
   inv_confirmSplit env chunkDocIds chunkPageIds chunkPreviews rangeText s hinv,
   inv_handleRunOcr ocrResult s hinv⟩

/-- Witness for C9 at the concrete one-page workspace: the invariant holds
after each operation applied to `sampleState`. -/
theorem claim_C9_referential_integrity_witness :
    WsInvariant (handleDelete "pg1" sampleState).ws ∧
    WsInvariant (handleRotate Option.none "pg1" RotationDirection.clockwise sampleState).ws ∧
    WsInvariant (handleReorder 0 0 sampleState).ws ∧
    WsInvariant (handleUndo sampleState).ws ∧
    WsInvariant (resetWorkspace sampleState).ws ∧
    WsInvariant (handlePdfLoad true [] sampleState).ws ∧
    WsInvariant (handleMerge sampleEnv "m" (fun _ => "mp") (fun _ => "mu") sampleState).ws ∧
    WsInvariant (confirmSplit sampleEnv (fun _ => "c") (fun _ _ => "cp") (fun _ _ => "cu")
      "*" sampleState).ws ∧
    WsInvariant (handleRunOcr (fun _ _ => Option.none) sampleState).ws :=
  claim_C9_referential_integrity sampleEnv sampleState Option.none "pg1" "pg1"
    RotationDirection.clockwise 0 0 (fun _ _ => Option.none) true [] "m"
    (fun _ => "mp") (fun _ => "mu") (fun _ => "c") (fun _ _ => "cp") (fun _ _ => "cu") "*"
    sampleState_inv (by simp [sampleState]) (by simp)

end Aloe
